import Mathlib

/-!
Verification development for the maze-race application: the procedural maze
generator (`generateMaze` in src/types.ts), the collision checker and the
client game state machine (the main React component), and the websocket room
relay (the server file), embedded shallowly.

Conventions of the embedding:
* grid cells are pairs of integers `(x, y)`; the 2-D `grid` of 0/1 values is
  represented by the finite set of its floor cells (value 0);
* `Math.random()`-driven choices are modelled by explicit streams passed as
  parameters (the shuffled direction lists of the carve, the proposed trap
  cells, the proposed fallback safe-zone cells);
* the unbounded recursion / while loops of the source are given explicit fuel
  together with an exhaustion flag; the development proves the flag is never
  set at the canonical fuel, so the fueled functions coincide with the
  source's unbounded ones;
* JS numbers are modelled by `ℚ` (exact arithmetic, the standard idealisation
  of the binary doubles of the source).
-/

namespace MazeRace

abbrev Cell : Type := ℤ × ℤ

/-- The four two-step carve directions of `walk` inside `generateMaze`:
`[0,-2],[0,2],[-2,0],[2,0]` (as `(dx,dy)`); the random JS shuffle is modelled
by a direction-list stream, which for faithful runs is a permutation of this
list at every index. -/
def baseDirs : List Cell := [(0,-2),(0,2),(-2,0),(2,0)]

/-- In-bounds test `nx >= 0 && nx < width && ny >= 0 && ny < height`. -/
def inB (w h : ℕ) (p : Cell) : Prop :=
  0 ≤ p.1 ∧ p.1 < (w : ℤ) ∧ 0 ≤ p.2 ∧ p.2 < (h : ℤ)

instance (w h : ℕ) (p : Cell) : Decidable (inB w h p) := by
  unfold inB; infer_instance

/-- All in-bounds cells of a `w × h` grid. -/
def allCells (w h : ℕ) : Finset Cell :=
  Finset.Icc 0 ((w : ℤ) - 1) ×ˢ Finset.Icc 0 ((h : ℤ) - 1)

lemma mem_allCells {w h : ℕ} {p : Cell} : p ∈ allCells w h ↔ inB w h p := by
  cases p with
  | mk a b => simp [allCells, Finset.mem_product, inB]; omega

/-- The inner loop of `walk`: iterate over the (shuffled) direction list; for
each direction whose two-step target is in bounds and still a wall, clear the
intermediate cell and recurse into the target (`recur`, which itself clears
the target first, exactly as `walk(nx, ny)` does `grid[y][x] = 0` first).
Returns the grid, the next random index and an exhaustion flag. -/
def walkDirs (w h : ℕ) (recur : Cell → Finset Cell → ℕ → Finset Cell × ℕ × Bool) :
    List Cell → Cell → Finset Cell → ℕ → Finset Cell × ℕ × Bool
  | [], _, g, k => (g, k, false)
  | d :: ds, c, g, k =>
      let n : Cell := (c.1 + d.1, c.2 + d.2)
      if inB w h n ∧ n ∉ g then
        let mid : Cell := (c.1 + d.1 / 2, c.2 + d.2 / 2)
        let r1 := recur n (insert mid g) k
        let r2 := walkDirs w h recur ds c r1.1 r1.2.1
        (r2.1, r2.2.1, r1.2.2 || r2.2.2)
      else
        walkDirs w h recur ds c g k

/-- The recursive carve `walk(x, y)`: clear the current cell, then process the
shuffled directions.  `dirR k` is the direction list produced by the `k`-th
`sort(() => Math.random() - 0.5)`.  Fuel bounds the recursion depth; the flag
records exhaustion (proved unreachable at fuel `w*h+1` below). -/
def walk (w h : ℕ) (dirR : ℕ → List Cell) : ℕ → Cell → Finset Cell → ℕ → Finset Cell × ℕ × Bool
  | 0, c, g, k => (insert c g, k, true)
  | fuel + 1, c, g, k => walkDirs w h (walk w h dirR fuel) (dirR k) c (insert c g) (k + 1)

/-- `walk(0,0)` on the all-wall grid. -/
def carveFloor (w h : ℕ) (dirR : ℕ → List Cell) : Finset Cell × Bool :=
  let r := walk w h dirR (w * h + 1) (0, 0) ∅ 0
  (r.1, r.2.2)

/-- The descending row indices `height-1, height-2, ..., max(0, height-1-d)`
of the `d`-th ring of the end-cell scan. -/
def ringIdxs (h : ℕ) (d : ℕ) : List ℤ :=
  ((List.range h).reverse.map (fun i : ℕ => (i : ℤ))).filter (fun ty => (h : ℤ) - 1 - d ≤ ty)

/-- The `d`-th ring of the end-cell scan, in exactly the order the nested
`for` loops visit it (`ty` outer descending, `tx` inner descending). -/
def ringScan (w h : ℕ) (d : ℕ) : List Cell :=
  (ringIdxs h d).flatMap fun ty => (ringIdxs w d).map fun tx => (tx, ty)

/-- The whole scan order: rings `d = 0, 1, ..., max(width,height)-1`.  Since
ring `d` is contained in ring `d+1` in the same relative order, the first
floor cell of this concatenation is exactly the cell at which the `break`s of
the source fire. -/
def scanList (w h : ℕ) : List Cell :=
  (List.range (max w h)).flatMap (ringScan w h)

/-- The end cell: first floor cell of the scan, defaulting to the bottom-right
corner `(width-1, height-1)` when no floor cell is found. -/
def endScan (w h : ℕ) (g : Finset Cell) : Cell :=
  ((scanList w h).find? (fun p => decide (p ∈ g))).getD ((w : ℤ) - 1, (h : ℤ) - 1)

/-- Trap acceptance test of the rejection-sampling loop: the proposed cell is
floor (`grid[ty][tx] === 0`; for an out-of-range proposal the source reads
`undefined`, which is not `0`, and the carved floor set only contains
in-bounds cells), is not the start `(0,0)`, not the end, and not already a
chosen trap. -/
def trapAccept (g : Finset Cell) (e : Cell) (acc : List Cell) (t : Cell) : Bool :=
  decide (t ∈ g) && !decide (t = ((0 : ℤ), (0 : ℤ))) && !decide (t = e) && !decide (t ∈ acc)

/-- `while (traps.length < trapCount && attempts < 100)`: at most 100
attempts, each consuming one random proposal `trapR i`. -/
def trapLoop (trapR : ℕ → Cell) (g : Finset Cell) (e : Cell) (count : ℤ) :
    ℕ → List Cell → ℕ → List Cell
  | 0, acc, _ => acc
  | att + 1, acc, i =>
      if (acc.length : ℤ) < count then
        let t := trapR i
        trapLoop trapR g e count att (if trapAccept g e acc t then acc ++ [t] else acc) (i + 1)
      else acc

/-- BFS state: FIFO queue, visited set, parent list (newest entry first, as a
model of the JS `Map`; keys are set at most once, so lookup order is
irrelevant). -/
structure BfsSt where
  queue : List Cell
  visited : Finset Cell
  par : List (Cell × Cell)

/-- BFS neighbour order `[0,1],[1,0],[0,-1],[-1,0]` (as `(dx,dy)`). -/
def bfsDirs : List Cell := [(0,1),(1,0),(0,-1),(-1,0)]

/-- Push one neighbour: in bounds, floor, unvisited — mark visited, record the
parent pointer and enqueue. -/
def bfsPush (w h : ℕ) (g : Finset Cell) (curr : Cell) (st : BfsSt) (d : Cell) : BfsSt :=
  let n : Cell := (curr.1 + d.1, curr.2 + d.2)
  if inB w h n ∧ n ∈ g ∧ n ∉ st.visited then
    { queue := st.queue ++ [n], visited := insert n st.visited, par := (n, curr) :: st.par }
  else st

/-- The BFS `while (queue.length > 0)` loop with its early `break` on popping
the end cell. -/
def bfsLoop (w h : ℕ) (g : Finset Cell) (e : Cell) : ℕ → BfsSt → BfsSt × Bool
  | 0, st => (st, true)
  | fuel + 1, st =>
      match st.queue with
      | [] => (st, false)
      | curr :: rest =>
          if curr = e then ({ st with queue := rest }, false)
          else bfsLoop w h g e fuel (bfsDirs.foldl (bfsPush w h g curr) { st with queue := rest })

/-- `parent.get` of the JS `Map` (keys are unique). -/
def lookupPar (L : List (Cell × Cell)) (c : Cell) : Option Cell :=
  (L.find? (fun e => decide (e.1 = c))).map (·.2)

/-- Path reconstruction `while (curr) { path.push(curr); curr = parent.get(...) }`,
fueled; produces the path end-first (the source then reverses it). -/
def reconstruct (L : List (Cell × Cell)) : ℕ → Cell → List Cell × Bool
  | 0, _ => ([], true)
  | fuel + 1, c =>
      match lookupPar L c with
      | none => ([c], false)
      | some v =>
          let r := reconstruct L fuel v
          (c :: r.1, r.2)

/-- One fallback rejection-sampling step (`while (!found)`): propose random
cells until one is floor and not already chosen.  The source loop is
unbounded; it is fueled here and shown to be dead code (the reconstructed
path is never empty). -/
def fbOne (sfR : ℕ → Cell) (g : Finset Cell) (acc : List Cell) :
    ℕ → ℕ → Option Cell × ℕ
  | 0, j => (none, j)
  | fuel + 1, j =>
      let p := sfR j
      if decide (p ∈ g) && !decide (p ∈ acc) then (some p, j + 1)
      else fbOne sfR g acc fuel (j + 1)

/-- The fallback `for (let i = 0; i < safeZoneCount; i++)` loop. -/
def fbAll (sfR : ℕ → Cell) (g : Finset Cell) (fuel : ℕ) :
    ℕ → List Cell → ℕ → List Cell × Bool
  | 0, acc, _ => (acc, false)
  | cnt + 1, acc, j =>
      match fbOne sfR g acc fuel j with
      | (some p, j2) => fbAll sfR g fuel cnt (acc ++ [p]) j2
      | (none, _) => (acc, true)

/-- The maze record (`MazeData` of the source).  The `grid` is the set of its
floor cells; `end` is renamed `goal` (`end` is a Lean keyword); traps carry
only their cell (their `id` is derived from it and their `state` field is
never read after construction). -/
structure MazeData where
  floor : Finset Cell
  width : ℕ
  height : ℕ
  start : Cell
  goal : Cell
  traps : List Cell
  safeZones : List Cell
deriving DecidableEq

/-- The carved floor set of the generator. -/
def genFloor (w h : ℕ) (dirR : ℕ → List Cell) : Finset Cell := (carveFloor w h dirR).1

/-- The end cell chosen by the generator's scan. -/
def genEnd (w h : ℕ) (dirR : ℕ → List Cell) : Cell := endScan w h (genFloor w h dirR)

/-- The BFS run of the generator (state and exhaustion flag). -/
def genBfs (w h : ℕ) (dirR : ℕ → List Cell) : BfsSt × Bool :=
  bfsLoop w h (genFloor w h dirR) (genEnd w h dirR) (w * h + 2)
    { queue := [(0, 0)], visited := {(0, 0)}, par := [] }

/-- The reconstructed end-first path (plus exhaustion flag). -/
def genRecon (w h : ℕ) (dirR : ℕ → List Cell) : List Cell × Bool :=
  reconstruct (genBfs w h dirR).1.par ((genBfs w h dirR).1.par.length + 1) (genEnd w h dirR)

/-- The start-to-end BFS path of the generator. -/
def genPath (w h : ℕ) (dirR : ℕ → List Cell) : List Cell := (genRecon w h dirR).1.reverse

/-- The number of safe zones `max(1, 4 - floor(difficulty / 3))`. -/
def zoneCount (d : ℚ) : ℕ := (max 1 (4 - ⌊d / 3⌋)).toNat

/-- `generateMaze(width, height, difficulty)`.  `dirR`, `trapR`, `sfR` model
the successive `Math.random()` draws of the carve shuffle, the trap sampling
and the (dead) safe-zone fallback sampling.  `none` signals fuel exhaustion
of one of the loops, proved unreachable below. -/
def generateMaze (w h : ℕ) (d : ℚ) (dirR : ℕ → List Cell) (trapR : ℕ → Cell)
    (sfR : ℕ → Cell) : Option MazeData :=
  let g := genFloor w h dirR
  let e := genEnd w h dirR
  let trapCount : ℤ := ⌊(w * h : ℚ) * (1 / 20) * d⌋
  let traps := trapLoop trapR g e trapCount 100 [] 0
  let path := genPath w h dirR
  let zCount := zoneCount d
  let step : ℕ := path.length / (zCount + 1)
  let z :=
    if path.length = 0 then fbAll sfR g (w * h + 1) zCount [] 0
    else ((List.range zCount).map fun i => path.getD (min ((i + 1) * step) (path.length - 1)) (0, 0),
          false)
  if (carveFloor w h dirR).2 || (genBfs w h dirR).2 || (genRecon w h dirR).2 || z.2 then none
  else some
    { floor := g, width := w, height := h, start := (0, 0), goal := e,
      traps := traps, safeZones := z.1 }

/-! ### Carve lemmas: monotonicity, bounds, fuel sufficiency -/

lemma walkDirs_sub (w h : ℕ) (recur : Cell → Finset Cell → ℕ → Finset Cell × ℕ × Bool)
    (hsub : ∀ c g k, g ⊆ (recur c g k).1) :
    ∀ (ds : List Cell) (c : Cell) (g : Finset Cell) (k : ℕ),
      g ⊆ (walkDirs w h recur ds c g k).1 := by
  intro ds
  induction ds with
  | nil => intro c g k; simp [walkDirs]
  | cons d ds ih =>
      intro c g k
      simp only [walkDirs]
      split
      · exact fun x hx =>
          ih c _ _ (hsub _ _ _ (Finset.mem_insert_of_mem hx))
      · exact ih c g k

lemma walk_sub (w h : ℕ) (dirR : ℕ → List Cell) :
    ∀ (fuel : ℕ) (c : Cell) (g : Finset Cell) (k : ℕ),
      insert c g ⊆ (walk w h dirR fuel c g k).1 := by
  intro fuel
  induction fuel with
  | zero => intro c g k; simp [walk]
  | succ fuel ih =>
      intro c g k
      exact walkDirs_sub w h _ (fun c' g' k' => (Finset.subset_insert c' g').trans (ih c' g' k'))
        (dirR k) c (insert c g) (k + 1)

lemma walkDirs_flag (w h : ℕ) (recur : Cell → Finset Cell → ℕ → Finset Cell × ℕ × Bool)
    (fuel : ℕ)
    (hsub : ∀ c g k, g ⊆ (recur c g k).1)
    (hrec : ∀ c g k, (allCells w h \ insert c g).card < fuel → (recur c g k).2.2 = false) :
    ∀ (ds : List Cell) (c : Cell) (g : Finset Cell) (k : ℕ),
      (allCells w h \ g).card ≤ fuel →
      (walkDirs w h recur ds c g k).2.2 = false := by
  intro ds
  induction ds with
  | nil => intro c g k _; simp [walkDirs]
  | cons d ds ih =>
      intro c g k hcard
      simp only [walkDirs]
      split
      · rename_i hguard
        obtain ⟨hnB, hng⟩ := hguard
        set n : Cell := (c.1 + d.1, c.2 + d.2) with hn
        set mid : Cell := (c.1 + d.1 / 2, c.2 + d.2 / 2) with hmid
        have hnA : n ∈ allCells w h := mem_allCells.mpr hnB
        have h1 : (allCells w h \ insert n (insert mid g)).card < fuel := by
          have hsubs : allCells w h \ insert n (insert mid g) ⊆ (allCells w h \ g).erase n := by
            intro x hx
            simp only [Finset.mem_sdiff, Finset.mem_insert, not_or] at hx
            simp only [Finset.mem_erase, Finset.mem_sdiff]
            exact ⟨hx.2.1, hx.1, hx.2.2.2⟩
          have hmem : n ∈ allCells w h \ g := Finset.mem_sdiff.mpr ⟨hnA, hng⟩
          calc (allCells w h \ insert n (insert mid g)).card
              ≤ ((allCells w h \ g).erase n).card := Finset.card_le_card hsubs
            _ = (allCells w h \ g).card - 1 := Finset.card_erase_of_mem hmem
            _ < fuel := by
                have : 1 ≤ (allCells w h \ g).card := Finset.card_pos.mpr ⟨n, hmem⟩
                omega
        have hflag1 : (recur n (insert mid g) k).2.2 = false := hrec n (insert mid g) k h1
        have hsub1 : g ⊆ (recur n (insert mid g) k).1 :=
          (Finset.subset_insert mid g).trans (hsub n (insert mid g) k)
        have hcard2 : (allCells w h \ (recur n (insert mid g) k).1).card ≤ fuel := by
          refine le_trans (Finset.card_le_card ?_) hcard
          exact fun x hx => Finset.mem_sdiff.mpr
            ⟨(Finset.mem_sdiff.mp hx).1, fun hxg => (Finset.mem_sdiff.mp hx).2 (hsub1 hxg)⟩
        simp [hflag1, ih c _ _ hcard2]
      · exact ih c g k hcard

lemma walk_flag (w h : ℕ) (dirR : ℕ → List Cell) :
    ∀ (fuel : ℕ) (c : Cell) (g : Finset Cell) (k : ℕ),
      (allCells w h \ insert c g).card < fuel →
      (walk w h dirR fuel c g k).2.2 = false := by
  intro fuel
  induction fuel with
  | zero => intro c g k h; omega
  | succ fuel ih =>
      intro c g k hcard
      exact walkDirs_flag w h _ fuel
        (fun c' g' k' => (Finset.subset_insert c' g').trans (walk_sub w h dirR fuel c' g' k'))
        (fun c' g' k' h' => ih c' g' k' h')
        (dirR k) c (insert c g) (k + 1) (by omega)

lemma carveFloor_flag (w h : ℕ) (dirR : ℕ → List Cell) :
    (carveFloor w h dirR).2 = false := by
  unfold carveFloor
  refine walk_flag w h dirR (w * h + 1) (0, 0) ∅ 0 ?_
  have h1 : (allCells w h \ insert ((0 : ℤ), (0 : ℤ)) ∅).card ≤ (allCells w h).card :=
    Finset.card_le_card (Finset.sdiff_subset)
  have h2 : (allCells w h).card = w * h := by
    simp only [allCells, Finset.card_product, Int.card_Icc]
    have e1 : (w : ℤ) - 1 + 1 - 0 = (w : ℤ) := by omega
    have e2 : (h : ℤ) - 1 + 1 - 0 = (h : ℤ) := by omega
    rw [e1, e2, Int.toNat_natCast, Int.toNat_natCast]
  omega

lemma carveFloor_start (w h : ℕ) (dirR : ℕ → List Cell) :
    ((0 : ℤ), (0 : ℤ)) ∈ (carveFloor w h dirR).1 := by
  unfold carveFloor
  exact walk_sub w h dirR (w * h + 1) (0, 0) ∅ 0 (Finset.mem_insert_self _ _)

/-! ### Reachability over floor cells (the flood-fill of the spec) -/

/-- 4-directional adjacency of grid cells. -/
def adj (p q : Cell) : Prop := (p.1 - q.1).natAbs + (p.2 - q.2).natAbs = 1

/-- `Reach g a b`: `b` is reachable from `a` by 4-directional moves through
cells of `g` (every cell stepped onto is a floor cell of `g`). -/
def Reach (g : Finset Cell) (a b : Cell) : Prop :=
  Relation.ReflTransGen (fun p q => adj p q ∧ q ∈ g) a b

lemma Reach.mono {g g' : Finset Cell} {a b : Cell} (hsub : g ⊆ g') (h : Reach g a b) :
    Reach g' a b :=
  Relation.ReflTransGen.mono (fun _ _ hpq => ⟨hpq.1, hsub hpq.2⟩) h

lemma Reach.mem {g : Finset Cell} {a b : Cell} (h : Reach g a b) : b = a ∨ b ∈ g := by
  rcases Relation.ReflTransGen.cases_tail h with h | ⟨c, _, hc⟩
  · exact Or.inl h
  · exact Or.inr hc.2

/-- The carve invariant: every floor cell is reachable from the start. -/
def InvC (g : Finset Cell) : Prop := ∀ c ∈ g, Reach g ((0 : ℤ), (0 : ℤ)) c

lemma InvC.insert {g : Finset Cell} {x : Cell} (hg : InvC g)
    (hx : Reach (insert x g) (0, 0) x) : InvC (insert x g) := by
  intro c hc
  rcases Finset.mem_insert.mp hc with rfl | hc
  · exact hx
  · exact (hg c hc).mono (Finset.subset_insert x g)

lemma baseDirs_mid_adj {d : Cell} (hd : d ∈ baseDirs) (c : Cell) :
    adj c (c.1 + d.1 / 2, c.2 + d.2 / 2) ∧
    adj (c.1 + d.1 / 2, c.2 + d.2 / 2) (c.1 + d.1, c.2 + d.2) := by
  simp only [baseDirs, List.mem_cons, List.not_mem_nil, or_false] at hd
  rcases hd with h | h | h | h <;> subst h <;>
    exact ⟨by simp [adj]; try norm_num, by simp [adj]; try norm_num⟩

lemma walkDirs_inv (w h : ℕ) (recur : Cell → Finset Cell → ℕ → Finset Cell × ℕ × Bool)
    (hsub : ∀ c g k, insert c g ⊆ (recur c g k).1)
    (hrecI : ∀ c g k, InvC (insert c g) → InvC (recur c g k).1) :
    ∀ (ds : List Cell) (c : Cell) (g : Finset Cell) (k : ℕ),
      (∀ d ∈ ds, d ∈ baseDirs) → c ∈ g → InvC g →
      (walkDirs w h recur ds c g k).1 ⊇ g ∧ InvC (walkDirs w h recur ds c g k).1 := by
  intro ds
  induction ds with
  | nil => intro c g k _ _ hInv; exact ⟨le_refl g, hInv⟩
  | cons d ds ih =>
      intro c g k hds hc hInv
      simp only [walkDirs]
      split
      · rename_i hguard
        obtain ⟨hnB, hng⟩ := hguard
        have hdbase : d ∈ baseDirs := hds d (List.mem_cons_self d ds)
        obtain ⟨hadj1, hadj2⟩ := baseDirs_mid_adj hdbase c
        set n : Cell := (c.1 + d.1, c.2 + d.2) with hn
        set mid : Cell := (c.1 + d.1 / 2, c.2 + d.2 / 2) with hmid
        -- the midpoint is reachable in `insert mid g`, the target in
        -- `insert n (insert mid g)`
        have hreach_mid : Reach (insert mid g) (0, 0) mid :=
          Relation.ReflTransGen.tail ((hInv c hc).mono (Finset.subset_insert mid g))
            ⟨hadj1, Finset.mem_insert_self mid g⟩
        have hInvMid : InvC (insert mid g) := hInv.insert hreach_mid
        have hInvN : InvC (insert n (insert mid g)) := by
          refine hInvMid.insert ?_
          exact Relation.ReflTransGen.tail
            (hreach_mid.mono (Finset.subset_insert n (insert mid g)))
            ⟨hadj2, Finset.mem_insert_self n (insert mid g)⟩
        have hInv1 : InvC (recur n (insert mid g) k).1 := hrecI n (insert mid g) k hInvN
        have hg1 : g ⊆ (recur n (insert mid g) k).1 :=
          ((Finset.subset_insert mid g).trans (Finset.subset_insert n (insert mid g))).trans
            (hsub n (insert mid g) k)
        have := ih c (recur n (insert mid g) k).1 (recur n (insert mid g) k).2.1
          (fun d' hd' => hds d' (List.mem_cons_of_mem d hd')) (hg1 hc) hInv1
        exact ⟨hg1.trans this.1, this.2⟩
      · exact ih c g k (fun d' hd' => hds d' (List.mem_cons_of_mem d hd')) hc hInv

lemma walk_inv (w h : ℕ) (dirR : ℕ → List Cell)
    (hdir : ∀ k, ∀ d ∈ dirR k, d ∈ baseDirs) :
    ∀ (fuel : ℕ) (c : Cell) (g : Finset Cell) (k : ℕ),
      InvC (insert c g) → InvC (walk w h dirR fuel c g k).1 := by
  intro fuel
  induction fuel with
  | zero => intro c g k hInv; simpa [walk] using hInv
  | succ fuel ih =>
      intro c g k hInv
      exact (walkDirs_inv w h _ (walk_sub w h dirR fuel) (fun c' g' k' => ih c' g' k')
        (dirR k) c (insert c g) (k + 1) (hdir k) (Finset.mem_insert_self c g) hInv).2

lemma carveFloor_inv (w h : ℕ) (dirR : ℕ → List Cell)
    (hdir : ∀ k, ∀ d ∈ dirR k, d ∈ baseDirs) :
    InvC (carveFloor w h dirR).1 := by
  unfold carveFloor
  refine walk_inv w h dirR hdir (w * h + 1) (0, 0) ∅ 0 ?_
  intro c hc
  simp only [insert_emptyc_eq, Finset.mem_singleton] at hc
  subst hc
  exact Relation.ReflTransGen.refl

/-! ### BFS lemmas: fuel sufficiency and parent-map well-formedness -/

/-- The BFS termination measure: queue length plus unvisited in-bounds cells. -/
def bmeasure (w h : ℕ) (st : BfsSt) : ℕ :=
  st.queue.length + (allCells w h \ st.visited).card

lemma bfsPush_visited_sub (w h : ℕ) (g : Finset Cell) (curr : Cell) (st : BfsSt) (d : Cell) :
    st.visited ⊆ (bfsPush w h g curr st d).visited := by
  simp only [bfsPush]
  split
  · exact Finset.subset_insert _ _
  · exact fun x hx => hx

lemma bfsPush_measure (w h : ℕ) (g : Finset Cell) (curr : Cell) (st : BfsSt) (d : Cell) :
    bmeasure w h (bfsPush w h g curr st d) ≤ bmeasure w h st := by
  simp only [bfsPush]
  split
  · rename_i hacc
    set n : Cell := (curr.1 + d.1, curr.2 + d.2)
    have hnA : n ∈ allCells w h := mem_allCells.mpr hacc.1
    have hmem : n ∈ allCells w h \ st.visited := Finset.mem_sdiff.mpr ⟨hnA, hacc.2.2⟩
    have hcards : allCells w h \ insert n st.visited = (allCells w h \ st.visited).erase n := by
      ext x
      simp only [Finset.mem_sdiff, Finset.mem_insert, Finset.mem_erase, not_or]
      tauto
    have hpos : 1 ≤ (allCells w h \ st.visited).card := Finset.card_pos.mpr ⟨n, hmem⟩
    simp only [bmeasure, List.length_append, List.length_singleton, hcards,
      Finset.card_erase_of_mem hmem]
    omega
  · exact le_refl _

lemma bfsFold_measure (w h : ℕ) (g : Finset Cell) (curr : Cell) :
    ∀ (ds : List Cell) (st : BfsSt),
      bmeasure w h (ds.foldl (bfsPush w h g curr) st) ≤ bmeasure w h st := by
  intro ds
  induction ds with
  | nil => intro st; exact le_refl _
  | cons d ds ih =>
      intro st
      exact le_trans (ih _) (bfsPush_measure w h g curr st d)

lemma bfsLoop_flag (w h : ℕ) (g : Finset Cell) (e : Cell) :
    ∀ (fuel : ℕ) (st : BfsSt), bmeasure w h st < fuel →
      (bfsLoop w h g e fuel st).2 = false := by
  intro fuel
  induction fuel with
  | zero => intro st h; omega
  | succ fuel ih =>
      intro st hm
      rcases hq : st.queue with _ | ⟨curr, rest⟩ <;> simp only [bfsLoop, hq]
      split
      · rfl
      · refine ih _ ?_
        have h1 := bfsFold_measure w h g curr bfsDirs { st with queue := rest }
        have h2 : bmeasure w h { st with queue := rest } + 1 = bmeasure w h st := by
          simp only [bmeasure]
          rw [hq]
          simp [List.length_cons]
          omega
        omega

/-- Well-formedness of the parent list: every parent value is the start or a
key recorded later (i.e. earlier in time), keys are fresh, and the start is
never a key. -/
inductive INVp : List (Cell × Cell) → Prop
  | nil : INVp []
  | cons {k v : Cell} {t : List (Cell × Cell)} :
      (v = ((0 : ℤ), (0 : ℤ)) ∨ v ∈ t.map Prod.fst) →
      k ∉ t.map Prod.fst →
      k ≠ ((0 : ℤ), (0 : ℤ)) →
      INVp t → INVp ((k, v) :: t)

/-- The BFS loop invariant: visited = {start} ∪ parent keys, the parent list
is well-formed, and every queued cell is visited. -/
def Jinv (st : BfsSt) : Prop :=
  st.visited = insert ((0 : ℤ), (0 : ℤ)) (st.par.map Prod.fst).toFinset ∧
  INVp st.par ∧ ∀ q ∈ st.queue, q ∈ st.visited

lemma bfsPush_J (w h : ℕ) (g : Finset Cell) (curr : Cell) (st : BfsSt) (d : Cell)
    (hJ : Jinv st) (hcurr : curr ∈ st.visited) : Jinv (bfsPush w h g curr st d) := by
  obtain ⟨hv, hp, hque⟩ := hJ
  simp only [bfsPush]
  split
  · rename_i hacc
    set n : Cell := (curr.1 + d.1, curr.2 + d.2)
    have hkeys : ∀ x, x ∈ st.par.map Prod.fst → x ∈ st.visited := by
      intro x hx
      rw [hv]
      exact Finset.mem_insert_of_mem (List.mem_toFinset.mpr hx)
    have hn_notkey : n ∉ st.par.map Prod.fst := fun hc => hacc.2.2 (hkeys n hc)
    have hn_ne : n ≠ ((0 : ℤ), (0 : ℤ)) := by
      intro hc
      exact hacc.2.2 (hc ▸ (hv ▸ Finset.mem_insert_self _ _))
    have hcurr' : curr = ((0 : ℤ), (0 : ℤ)) ∨ curr ∈ st.par.map Prod.fst := by
      rw [hv] at hcurr
      rcases Finset.mem_insert.mp hcurr with hc | hc
      · exact Or.inl hc
      · exact Or.inr (List.mem_toFinset.mp hc)
    refine ⟨?_, INVp.cons hcurr' hn_notkey hn_ne hp, ?_⟩
    · simp only [List.map_cons, List.toFinset_cons, hv]
      ext x
      simp only [Finset.mem_insert]
      tauto
    · intro q hq
      rcases List.mem_append.mp hq with hq | hq
      · exact Finset.mem_insert_of_mem (hque q hq)
      · simp only [List.mem_singleton] at hq
        exact hq ▸ Finset.mem_insert_self _ _
  · exact ⟨hv, hp, hque⟩

lemma bfsFold_J (w h : ℕ) (g : Finset Cell) (curr : Cell) :
    ∀ (ds : List Cell) (st : BfsSt), Jinv st → curr ∈ st.visited →
      Jinv (ds.foldl (bfsPush w h g curr) st) := by
  intro ds
  induction ds with
  | nil => intro st hJ _; exact hJ
  | cons d ds ih =>
      intro st hJ hcurr
      exact ih _ (bfsPush_J w h g curr st d hJ hcurr)
        (bfsPush_visited_sub w h g curr st d hcurr)

lemma bfsLoop_J (w h : ℕ) (g : Finset Cell) (e : Cell) :
    ∀ (fuel : ℕ) (st : BfsSt), Jinv st → Jinv (bfsLoop w h g e fuel st).1 := by
  intro fuel
  induction fuel with
  | zero => intro st hJ; exact hJ
  | succ fuel ih =>
      intro st hJ
      rcases hq : st.queue with _ | ⟨curr, rest⟩ <;> simp only [bfsLoop, hq]
      · exact hJ
      · have hcurr : curr ∈ st.visited := hJ.2.2 curr (hq ▸ List.mem_cons_self curr rest)
        have hJrest : Jinv { st with queue := rest } :=
          ⟨hJ.1, hJ.2.1, fun q hqr => hJ.2.2 q (hq ▸ List.mem_cons_of_mem curr hqr)⟩
        split
        · exact hJrest
        · exact ih _ (bfsFold_J w h g curr bfsDirs _ hJrest hcurr)

/-! ### Path reconstruction terminates on a well-formed parent list -/

/-- Depth of a key in the parent list: distance (from the old end) of its
entry; `0` for non-keys. -/
def pdepth : List (Cell × Cell) → Cell → ℕ
  | [], _ => 0
  | (k, _) :: t, c => if k = c then t.length + 1 else pdepth t c

lemma pdepth_le (L : List (Cell × Cell)) (c : Cell) : pdepth L c ≤ L.length := by
  induction L with
  | nil => simp [pdepth]
  | cons e t ih =>
      obtain ⟨k, v⟩ := e
      simp only [pdepth, List.length_cons]
      split <;> omega

lemma INVp_start_not_key {L : List (Cell × Cell)} (hI : INVp L) :
    ((0 : ℤ), (0 : ℤ)) ∉ L.map Prod.fst := by
  induction hI with
  | nil => simp
  | cons hv hk hne _ ih =>
      simp only [List.map_cons, List.mem_cons, not_or]
      exact ⟨fun hc => hne hc.symm, ih⟩

lemma pdepth_not_key {L : List (Cell × Cell)} {c : Cell} (h : c ∉ L.map Prod.fst) :
    pdepth L c = 0 := by
  induction L with
  | nil => rfl
  | cons e t ih =>
      obtain ⟨k, v⟩ := e
      simp only [List.map_cons, List.mem_cons, not_or] at h
      simp only [pdepth, if_neg (fun hc : k = c => h.1 hc.symm)]
      exact ih h.2

lemma lookupPar_cons (k v : Cell) (t : List (Cell × Cell)) (c : Cell) :
    lookupPar ((k, v) :: t) c = if k = c then some v else lookupPar t c := by
  unfold lookupPar
  by_cases hk : k = c
  · rw [List.find?_cons_of_pos _ (by simpa using hk), if_pos hk]
    rfl
  · rw [List.find?_cons_of_neg _ (by simpa using hk), if_neg hk]

lemma pdepth_pos_of_lookup {L : List (Cell × Cell)} {c v : Cell}
    (h : lookupPar L c = some v) : 1 ≤ pdepth L c := by
  induction L with
  | nil => simp [lookupPar] at h
  | cons e t ih =>
      obtain ⟨k, w⟩ := e
      rw [lookupPar_cons] at h
      by_cases hk : k = c
      · simp [pdepth, hk]
      · rw [if_neg hk] at h
        simp only [pdepth, if_neg hk]
        exact ih h

lemma lookupPar_val {L : List (Cell × Cell)} (hI : INVp L) {c v : Cell}
    (h : lookupPar L c = some v) :
    v = ((0 : ℤ), (0 : ℤ)) ∨ v ∈ L.map Prod.fst := by
  induction hI with
  | nil => simp [lookupPar] at h
  | cons hv hk hne ht ih =>
      rename_i k v0 t
      rw [lookupPar_cons] at h
      by_cases hkc : k = c
      · rw [if_pos hkc] at h
        have hv0 : v = v0 := by injection h with h; exact h.symm
        subst hv0
        rcases hv with h0 | hmem
        · exact Or.inl h0
        · exact Or.inr (List.mem_cons_of_mem _ hmem)
      · rw [if_neg hkc] at h
        rcases ih h with h0 | hmem
        · exact Or.inl h0
        · exact Or.inr (List.mem_cons_of_mem _ hmem)

lemma lookupPar_step {L : List (Cell × Cell)} (hI : INVp L) {c v : Cell}
    (h : lookupPar L c = some v) :
    v = ((0 : ℤ), (0 : ℤ)) ∨ pdepth L v < pdepth L c := by
  induction hI with
  | nil => simp [lookupPar] at h
  | cons hv hk hne ht ih =>
      rename_i k v0 t
      rw [lookupPar_cons] at h
      by_cases hkc : k = c
      · rw [if_pos hkc] at h
        have hv0 : v0 = v := by injection h
        subst hv0
        rcases hv with h0 | hmem
        · exact Or.inl h0
        · refine Or.inr ?_
          have hkv : k ≠ v0 := fun hc => hk (hc ▸ hmem)
          simp only [pdepth, if_pos hkc, if_neg hkv]
          calc pdepth t v0 ≤ t.length := pdepth_le t v0
            _ < t.length + 1 := by omega
      · rw [if_neg hkc] at h
        have hval := lookupPar_val ht h
        rcases ih h with h0 | hlt
        · exact Or.inl h0
        · refine Or.inr ?_
          have hkv : k ≠ v := by
            rcases hval with h0 | hmem
            · exact h0 ▸ hne
            · exact fun hc => hk (hc ▸ hmem)
          simp only [pdepth, if_neg hkc, if_neg hkv]
          exact hlt

lemma reconstruct_flag {L : List (Cell × Cell)} (hI : INVp L) :
    ∀ (fuel : ℕ) (c : Cell), pdepth L c < fuel →
      (reconstruct L fuel c).2 = false := by
  intro fuel
  induction fuel with
  | zero => intro c h; omega
  | succ fuel ih =>
      intro c hc
      simp only [reconstruct]
      rcases hl : lookupPar L c with _ | v
      · rfl
      · have h1 : 1 ≤ pdepth L c := pdepth_pos_of_lookup hl
        rcases lookupPar_step hI hl with h0 | hlt
        · refine ih v ?_
          subst h0
          rw [pdepth_not_key (INVp_start_not_key hI)]
          omega
        · exact ih v (by omega)

lemma reconstruct_ne_nil (L : List (Cell × Cell)) (fuel : ℕ) (c : Cell) :
    (reconstruct L (fuel + 1) c).1 ≠ [] := by
  simp only [reconstruct]
  rcases lookupPar L c with _ | v <;> simp

/-! ### The generator never exhausts its fuel -/

lemma genBfs_flag (w h : ℕ) (dirR : ℕ → List Cell) : (genBfs w h dirR).2 = false := by
  unfold genBfs
  refine bfsLoop_flag w h _ _ (w * h + 2) _ ?_
  have h2 : (allCells w h \ ({((0 : ℤ), (0 : ℤ))} : Finset Cell)).card ≤ (allCells w h).card :=
    Finset.card_le_card Finset.sdiff_subset
  have h3 : (allCells w h).card = w * h := by
    simp only [allCells, Finset.card_product, Int.card_Icc]
    have e1 : (w : ℤ) - 1 + 1 - 0 = (w : ℤ) := by omega
    have e2 : (h : ℤ) - 1 + 1 - 0 = (h : ℤ) := by omega
    rw [e1, e2, Int.toNat_natCast, Int.toNat_natCast]
  simp only [bmeasure, List.length_singleton]
  omega

lemma genBfs_INVp (w h : ℕ) (dirR : ℕ → List Cell) : INVp (genBfs w h dirR).1.par := by
  have hJ0 : Jinv { queue := [((0 : ℤ), (0 : ℤ))], visited := {((0 : ℤ), (0 : ℤ))}, par := [] } := by
    refine ⟨by simp, INVp.nil, ?_⟩
    intro q hq
    simp only [List.mem_singleton] at hq
    simp [hq]
  exact (bfsLoop_J w h _ _ (w * h + 2) _ hJ0).2.1

lemma genRecon_flag (w h : ℕ) (dirR : ℕ → List Cell) : (genRecon w h dirR).2 = false := by
  unfold genRecon
  refine reconstruct_flag (genBfs_INVp w h dirR) _ _ ?_
  have := pdepth_le (genBfs w h dirR).1.par (genEnd w h dirR)
  omega

lemma genPath_ne_nil (w h : ℕ) (dirR : ℕ → List Cell) : genPath w h dirR ≠ [] := by
  unfold genPath genRecon
  intro hc
  exact reconstruct_ne_nil (genBfs w h dirR).1.par (genBfs w h dirR).1.par.length
    (genEnd w h dirR) (by simpa using hc)

lemma generateMaze_isSome (w h : ℕ) (d : ℚ) (dirR : ℕ → List Cell)
    (trapR sfR : ℕ → Cell) :
    (generateMaze w h d dirR trapR sfR).isSome := by
  have hpath : ¬ (genPath w h dirR).length = 0 :=
    fun hc => genPath_ne_nil w h dirR (List.length_eq_zero.mp hc)
  simp only [generateMaze, carveFloor_flag, genBfs_flag, genRecon_flag, Bool.false_or,
    if_neg hpath]
  simp

/-- The maze actually returned: its fields in terms of the named pieces. -/
lemma generateMaze_eq (w h : ℕ) (d : ℚ) (dirR : ℕ → List Cell) (trapR sfR : ℕ → Cell)
    {m : MazeData} (hm : generateMaze w h d dirR trapR sfR = some m) :
    m.floor = genFloor w h dirR ∧ m.width = w ∧ m.height = h ∧
    m.start = (0, 0) ∧ m.goal = genEnd w h dirR ∧
    m.traps = trapLoop trapR (genFloor w h dirR) (genEnd w h dirR)
      ⌊(w * h : ℚ) * (1 / 20) * d⌋ 100 [] 0 ∧
    m.safeZones = (List.range (zoneCount d)).map fun i =>
      (genPath w h dirR).getD
        (min ((i + 1) * ((genPath w h dirR).length / (zoneCount d + 1)))
          ((genPath w h dirR).length - 1)) (0, 0) := by
  have hpath : ¬ (genPath w h dirR).length = 0 :=
    fun hc => genPath_ne_nil w h dirR (List.length_eq_zero.mp hc)
  simp only [generateMaze, carveFloor_flag, genBfs_flag, genRecon_flag, Bool.false_or,
    if_neg hpath] at hm
  simp only [Bool.or_false, if_false, Bool.false_eq_true, Option.some.injEq] at hm
  subst hm
  simp

/-! ### The carved floor stays in bounds -/

lemma walkDirs_bounded (w h : ℕ) (recur : Cell → Finset Cell → ℕ → Finset Cell × ℕ × Bool)
    (hrec : ∀ c g k, c ∈ allCells w h → g ⊆ allCells w h → (recur c g k).1 ⊆ allCells w h) :
    ∀ (ds : List Cell) (c : Cell) (g : Finset Cell) (k : ℕ),
      c ∈ allCells w h → g ⊆ allCells w h →
      (walkDirs w h recur ds c g k).1 ⊆ allCells w h := by
  intro ds
  induction ds with
  | nil => intro c g k _ hg; simpa [walkDirs] using hg
  | cons d ds ih =>
      intro c g k hc hg
      simp only [walkDirs]
      split
      · rename_i hguard
        have hnA : (c.1 + d.1, c.2 + d.2) ∈ allCells w h := mem_allCells.mpr hguard.1
        have hmidA : (c.1 + d.1 / 2, c.2 + d.2 / 2) ∈ allCells w h := by
          have h1 := mem_allCells.mp hc
          have h2 := mem_allCells.mp hnA
          refine mem_allCells.mpr ?_
          unfold inB at h1 h2 ⊢
          simp only at h1 h2 ⊢
          omega
        exact ih c _ _ hc (hrec _ _ _ hnA (Finset.insert_subset hmidA hg))
      · exact ih c g k hc hg

lemma walk_bounded (w h : ℕ) (dirR : ℕ → List Cell) :
    ∀ (fuel : ℕ) (c : Cell) (g : Finset Cell) (k : ℕ),
      c ∈ allCells w h → g ⊆ allCells w h →
      (walk w h dirR fuel c g k).1 ⊆ allCells w h := by
  intro fuel
  induction fuel with
  | zero => intro c g k hc hg; simpa [walk] using Finset.insert_subset hc hg
  | succ fuel ih =>
      intro c g k hc hg
      exact walkDirs_bounded w h _ (fun c' g' k' => ih c' g' k') (dirR k) c (insert c g) (k + 1)
        hc (Finset.insert_subset hc hg)

lemma genFloor_bounded (w h : ℕ) (dirR : ℕ → List Cell) (hw : 1 ≤ w) (hh : 1 ≤ h) :
    genFloor w h dirR ⊆ allCells w h := by
  unfold genFloor carveFloor
  refine walk_bounded w h dirR (w * h + 1) (0, 0) ∅ 0 ?_ (Finset.empty_subset _)
  refine mem_allCells.mpr ?_
  unfold inB
  simp only
  omega

/-! ### The end-cell scan: the start is scanned last -/

lemma zero_mem_ringIdxs {n d : ℕ} : (0 : ℤ) ∈ ringIdxs n d ↔ 1 ≤ n ∧ n - 1 ≤ d := by
  simp only [ringIdxs, List.mem_filter, List.mem_map, List.mem_reverse, List.mem_range,
    decide_eq_true_eq]
  constructor
  · rintro ⟨⟨i, hi, hi0⟩, hle⟩
    constructor <;> omega
  · rintro ⟨hn, hd⟩
    exact ⟨⟨0, by omega, by norm_num⟩, by push_cast; omega⟩

lemma mem_ringIdxs {n d : ℕ} {x : ℤ} (hx : 0 ≤ x) (hxn : x < (n : ℤ))
    (hd : (n : ℕ) - 1 ≤ d) : x ∈ ringIdxs n d := by
  simp only [ringIdxs, List.mem_filter, List.mem_map, List.mem_reverse, List.mem_range,
    decide_eq_true_eq]
  exact ⟨⟨x.toNat, by omega, by omega⟩, by push_cast; omega⟩

lemma revRange_split : ∀ n : ℕ, 1 ≤ n →
    ∃ F : List ℕ, (List.range n).reverse = F ++ [0] ∧ ∀ x ∈ F, x ≠ 0 := by
  intro n
  induction n with
  | zero => intro h; omega
  | succ m ih =>
      intro _
      rw [List.range_succ, List.reverse_append]
      simp only [List.reverse_singleton, List.singleton_append]
      by_cases hm : 1 ≤ m
      · obtain ⟨F, hF, hFne⟩ := ih hm
        refine ⟨m :: F, by rw [hF]; rfl, ?_⟩
        intro x hx
        rcases List.mem_cons.mp hx with rfl | hx
        · omega
        · exact hFne x hx
      · have : m = 0 := by omega
        subst this
        exact ⟨[], by simp, by simp⟩

lemma ringIdxs_full {n : ℕ} (d : ℕ) (hn : 1 ≤ n) (hd : (n : ℕ) - 1 ≤ d) :
    ∃ F : List ℤ, ringIdxs n d = F ++ [0] ∧ ∀ x ∈ F, x ≠ (0 : ℤ) := by
  have hfull : ringIdxs n d = ((List.range n).reverse.map (fun i : ℕ => (i : ℤ))) := by
    unfold ringIdxs
    refine List.filter_eq_self.mpr ?_
    intro x hx
    simp only [List.mem_map, List.mem_reverse, List.mem_range] at hx
    obtain ⟨i, hi, rfl⟩ := hx
    simp only [decide_eq_true_eq]
    omega
  obtain ⟨F, hF, hFne⟩ := revRange_split n hn
  rw [hfull, hF, List.map_append]
  refine ⟨F.map (fun i : ℕ => (i : ℤ)), by simp, ?_⟩
  intro x hx
  simp only [List.mem_map] at hx
  obtain ⟨i, hi, rfl⟩ := hx
  have := hFne i hi
  omega

lemma zero_mem_ringScan {w h d : ℕ} :
    ((0 : ℤ), (0 : ℤ)) ∈ ringScan w h d ↔
    (1 ≤ h ∧ h - 1 ≤ d) ∧ (1 ≤ w ∧ w - 1 ≤ d) := by
  simp only [ringScan, List.mem_flatMap, List.mem_map]
  constructor
  · rintro ⟨ty, hty, tx, htx, heq⟩
    have htx0 : tx = 0 := congrArg Prod.fst heq
    have hty0 : ty = 0 := congrArg Prod.snd heq
    subst htx0; subst hty0
    exact ⟨zero_mem_ringIdxs.mp hty, zero_mem_ringIdxs.mp htx⟩
  · rintro ⟨hh, hw⟩
    exact ⟨0, zero_mem_ringIdxs.mpr hh, 0, zero_mem_ringIdxs.mpr hw, rfl⟩

lemma ringScan_split {w h : ℕ} (d : ℕ) (hw : 1 ≤ w) (hh : 1 ≤ h)
    (hwd : w - 1 ≤ d) (hhd : h - 1 ≤ d) :
    ∃ L : List Cell, ringScan w h d = L ++ [((0 : ℤ), (0 : ℤ))] ∧
      ((0 : ℤ), (0 : ℤ)) ∉ L := by
  obtain ⟨FH, hFH, hFHne⟩ := ringIdxs_full (n := h) d hh hhd
  obtain ⟨FW, hFW, hFWne⟩ := ringIdxs_full (n := w) d hw hwd
  refine ⟨FH.flatMap (fun ty => (ringIdxs w d).map fun tx => (tx, ty)) ++
    FW.map (fun tx => (tx, (0 : ℤ))), ?_, ?_⟩
  · rw [ringScan, hFH, List.flatMap_append, List.flatMap_singleton, hFW,
      List.map_append, List.append_assoc]
    rfl
  · intro hmem
    rcases List.mem_append.mp hmem with hmem | hmem
    · simp only [List.mem_flatMap, List.mem_map] at hmem
      obtain ⟨ty, hty, tx, _, heq⟩ := hmem
      have : ty = 0 := congrArg Prod.snd heq
      exact hFHne ty hty this
    · simp only [List.mem_map] at hmem
      obtain ⟨tx, htx, heq⟩ := hmem
      have : tx = 0 := congrArg Prod.fst heq
      exact hFWne tx htx this

lemma scanList_split {w h : ℕ} (hw : 1 ≤ w) (hh : 1 ≤ h) :
    ∃ L : List Cell, scanList w h = L ++ [((0 : ℤ), (0 : ℤ))] ∧
      ((0 : ℤ), (0 : ℤ)) ∉ L := by
  have hM : max w h = (max w h - 1) + 1 := by omega
  obtain ⟨L, hL, hLne⟩ := ringScan_split (w := w) (h := h) (max w h - 1) hw hh
    (by omega) (by omega)
  refine ⟨(List.range (max w h - 1)).flatMap (ringScan w h) ++ L, ?_, ?_⟩
  · rw [scanList, hM, List.range_succ, List.flatMap_append, List.flatMap_singleton, hL,
      List.append_assoc]
    simp
  · intro hmem
    rcases List.mem_append.mp hmem with hmem | hmem
    · simp only [List.mem_flatMap, List.mem_range] at hmem
      obtain ⟨d, hd, hmem⟩ := hmem
      obtain ⟨⟨_, hhd⟩, _, hwd⟩ := zero_mem_ringScan.mp hmem
      omega
    · exact hLne hmem

lemma mem_scanList {w h : ℕ} {c : Cell} (hc : c ∈ allCells w h) : c ∈ scanList w h := by
  have hb := mem_allCells.mp hc
  unfold inB at hb
  have hw : 1 ≤ w := by omega
  have hh : 1 ≤ h := by omega
  simp only [scanList, List.mem_flatMap, List.mem_range]
  refine ⟨max w h - 1, by omega, ?_⟩
  simp only [ringScan, List.mem_flatMap, List.mem_map]
  exact ⟨c.2, mem_ringIdxs hb.2.2.1 hb.2.2.2 (by omega),
    c.1, mem_ringIdxs hb.1 hb.2.1 (by omega), rfl⟩

lemma find?_append_last {α : Type} [DecidableEq α] {L1 : List α} {a : α} {P : α → Bool}
    (hfind : (L1 ++ [a]).find? P = some a) (hna : a ∉ L1) :
    ∀ b ∈ L1, P b = false := by
  induction L1 with
  | nil => intro b hb; simp at hb
  | cons x t ih =>
      intro b hb
      by_cases hx : P x = true
      · rw [List.cons_append, List.find?_cons_of_pos _ hx] at hfind
        have : x = a := by injection hfind
        exact absurd (this ▸ List.mem_cons_self x t) hna
      · rw [List.cons_append, List.find?_cons_of_neg _ hx] at hfind
        rcases List.mem_cons.mp hb with rfl | hb
        · simpa using hx
        · exact ih hfind (fun hc => hna (List.mem_cons_of_mem x hc)) b hb

/-- If some floor cell other than the start exists (in bounds), the end-cell
scan cannot return the start: the start `(0,0)` is the very last cell of the
scan order. -/
lemma endScan_ne_start {w h : ℕ} {g : Finset Cell} {c : Cell}
    (hc : c ∈ allCells w h) (hne : c ≠ ((0 : ℤ), (0 : ℤ))) (hcg : c ∈ g) :
    endScan w h g ≠ ((0 : ℤ), (0 : ℤ)) := by
  intro hE
  have hb := mem_allCells.mp hc
  unfold inB at hb
  have hw : 1 ≤ w := by omega
  have hh : 1 ≤ h := by omega
  obtain ⟨L1, hsplit, hnotin⟩ := scanList_split (w := w) (h := h) hw hh
  have hmem : c ∈ scanList w h := mem_scanList hc
  have hcL1 : c ∈ L1 := by
    rw [hsplit] at hmem
    rcases List.mem_append.mp hmem with hm | hm
    · exact hm
    · simp only [List.mem_singleton] at hm
      exact absurd hm hne
  unfold endScan at hE
  rcases hfind : (scanList w h).find? (fun p => decide (p ∈ g)) with _ | p
  · have := List.find?_eq_none.mp hfind c hmem
    simp only [decide_eq_true_eq] at this
    exact this hcg
  · rw [hfind] at hE
    simp only [Option.getD_some] at hE
    subst hE
    rw [hsplit] at hfind
    have hfalse := find?_append_last hfind hnotin c hcL1
    simp only [decide_eq_false_iff_not] at hfalse
    exact hfalse hcg

/-! ### Traps never occupy the start or end cell -/

lemma trapLoop_excl (trapR : ℕ → Cell) (g : Finset Cell) (e : Cell) (count : ℤ) :
    ∀ (att : ℕ) (acc : List Cell) (i : ℕ),
      (∀ t ∈ acc, t ≠ ((0 : ℤ), (0 : ℤ)) ∧ t ≠ e) →
      ∀ t ∈ trapLoop trapR g e count att acc i, t ≠ ((0 : ℤ), (0 : ℤ)) ∧ t ≠ e := by
  intro att
  induction att with
  | zero => intro acc i hacc; simpa [trapLoop] using hacc
  | succ att ih =>
      intro acc i hacc
      simp only [trapLoop]
      split
      · refine ih _ _ ?_
        split
        · rename_i hAcc
          intro t ht
          rcases List.mem_append.mp ht with ht | ht
          · exact hacc t ht
          · simp only [List.mem_singleton] at ht
            subst ht
            unfold trapAccept at hAcc
            simp only [Bool.and_eq_true, Bool.not_eq_true', decide_eq_false_iff_not] at hAcc
            exact ⟨hAcc.1.1.2, hAcc.1.2⟩
        · exact hacc
      · exact hacc

/-! ### Claim C2, C3, C9 theorems -/

/-- Constant random streams used as concrete witnesses (the identity
permutation of the direction list at every carve step; constant proposals). -/
def constDirR : ℕ → List Cell := fun _ => baseDirs

def constTrapR : ℕ → Cell := fun _ => (0, 0)

def constSfR : ℕ → Cell := fun _ => (0, 0)

/-- C2: for every generated maze (width, height ≥ 2, difficulty ≥ 0, the
direction stream a permutation of the four carve directions as produced by
the JS shuffle), the flood-fill reachable set from the start equals the whole
floor set. -/
theorem c2_generated_maze_fully_reachable (w h : ℕ) (d : ℚ) (dirR : ℕ → List Cell)
    (trapR sfR : ℕ → Cell) (m : MazeData) (hw : 2 ≤ w) (hh : 2 ≤ h) (hd : 0 ≤ d)
    (hdir : ∀ k, (dirR k).Perm baseDirs)
    (hm : generateMaze w h d dirR trapR sfR = some m) :
    {b : Cell | Reach m.floor m.start b} = (↑m.floor : Set Cell) := by
  obtain ⟨hfloor, -, -, hstart, -, -, -⟩ := generateMaze_eq w h d dirR trapR sfR hm
  have hdir' : ∀ k, ∀ d' ∈ dirR k, d' ∈ baseDirs :=
    fun k d' hd' => (hdir k).mem_iff.mp hd'
  have hInv : InvC (genFloor w h dirR) := carveFloor_inv w h dirR hdir'
  have hstart_mem : ((0 : ℤ), (0 : ℤ)) ∈ genFloor w h dirR := carveFloor_start w h dirR
  rw [hfloor, hstart]
  ext b
  simp only [Set.mem_setOf_eq, Finset.coe_insert, Set.mem_insert_iff, Finset.mem_coe]
  constructor
  · intro hreach
    rcases hreach.mem with rfl | hb
    · exact hstart_mem
    · exact hb
  · intro hb
    exact hInv b hb

/-- The concrete 2×2 maze at difficulty 1 with the identity shuffle. -/
def maze22 : MazeData :=
  (generateMaze 2 2 1 constDirR constTrapR constSfR).get
    (generateMaze_isSome 2 2 1 constDirR constTrapR constSfR)

lemma maze22_eq : generateMaze 2 2 1 constDirR constTrapR constSfR = some maze22 :=
  (Option.some_get _).symm

theorem c2_generated_maze_fully_reachable_witness :
    {b : Cell | Reach maze22.floor maze22.start b} = (↑maze22.floor : Set Cell) :=
  c2_generated_maze_fully_reachable 2 2 1 constDirR constTrapR constSfR maze22
    (by norm_num) (by norm_num) (by norm_num) (fun _ => List.Perm.refl _) maze22_eq

/-- C9: `generateMaze` terminates on every input: the carve recursion, the
BFS, the path reconstruction and the trap loop all complete within their
bounds (the trap loop performs at most 100 attempts by construction, and the
unbounded safe-zone fallback loop is dead code because the reconstructed path
is never empty), so the generator always returns a maze. -/
theorem c9_generateMaze_terminates (w h : ℕ) (d : ℚ) (dirR : ℕ → List Cell)
    (trapR sfR : ℕ → Cell) :
    (generateMaze w h d dirR trapR sfR).isSome :=
  generateMaze_isSome w h d dirR trapR sfR

lemma zoneCount_one : zoneCount 1 = 4 := by
  have h : ⌊(1 : ℚ) / 3⌋ = 0 := by norm_num
  unfold zoneCount
  rw [h]
  decide

/-- C3 counterexample: at width = height = 2 (difficulty 1) the only floor
cell is the start, so the generated maze has `start = end` and its safe zones
all equal the start cell — the claim that start and end are always distinct
and that no safe zone occupies them is false. -/
theorem c3_start_end_distinct_counterexample :
    maze22.start = maze22.goal ∧ maze22.start ∈ maze22.safeZones := by
  obtain ⟨-, -, -, hstart, hgoal, -, hsafe⟩ :=
    generateMaze_eq 2 2 1 constDirR constTrapR constSfR maze22_eq
  rw [hstart, hgoal, hsafe, zoneCount_one]
  exact ⟨by decide, by decide⟩

/-- C3 (amended): traps never occupy the start or the end cell; and whenever
the maze has any floor cell besides the start (which fails only in the
degenerate 2×2 case, where the start is the only floor cell), the start and
end are distinct.  Safe zones, however, are clamped positions on the BFS path
and may coincide with the start or the end. -/
theorem c3_traps_excluded_and_start_ne_end (w h : ℕ) (d : ℚ) (dirR : ℕ → List Cell)
    (trapR sfR : ℕ → Cell) (m : MazeData) (hw : 2 ≤ w) (hh : 2 ≤ h) (hd : 0 ≤ d)
    (hm : generateMaze w h d dirR trapR sfR = some m) :
    (∀ t ∈ m.traps, t ≠ m.start ∧ t ≠ m.goal) ∧
    ((∃ c ∈ m.floor, c ≠ m.start) → m.start ≠ m.goal) := by
  obtain ⟨hfloor, -, -, hstart, hgoal, htraps, -⟩ := generateMaze_eq w h d dirR trapR sfR hm
  constructor
  · intro t ht
    rw [htraps] at ht
    have := trapLoop_excl trapR (genFloor w h dirR) (genEnd w h dirR)
      ⌊(w * h : ℚ) * (1 / 20) * d⌋ 100 [] 0 (by simp) t ht
    rw [hstart, hgoal]
    exact this
  · rintro ⟨c, hc, hcne⟩
    rw [hstart, hgoal]
    intro hE
    rw [hfloor] at hc
    rw [hstart] at hcne
    have hcA : c ∈ allCells w h := genFloor_bounded w h dirR (by omega) (by omega) hc
    exact endScan_ne_start hcA hcne hc (by simpa [genEnd] using hE.symm)

/-- The concrete 3×3 maze at difficulty 1 with the identity shuffle. -/
def maze33 : MazeData :=
  (generateMaze 3 3 1 constDirR constTrapR constSfR).get
    (generateMaze_isSome 3 3 1 constDirR constTrapR constSfR)

lemma maze33_eq : generateMaze 3 3 1 constDirR constTrapR constSfR = some maze33 :=
  (Option.some_get _).symm

theorem c3_traps_excluded_witness :
    (∀ t ∈ maze33.traps, t ≠ maze33.start ∧ t ≠ maze33.goal) ∧
    ((∃ c ∈ maze33.floor, c ≠ maze33.start) → maze33.start ≠ maze33.goal) :=
  c3_traps_excluded_and_start_ne_end 3 3 1 constDirR constTrapR constSfR maze33
    (by norm_num) (by norm_num) (by norm_num) maze33_eq

/-! ### CollisionResolver (`checkCollision` of the client component) -/

/-- `CELL_SIZE` constant of the source. -/
def CELL_SIZE : ℚ := 40

/-- `PLAYER_RADIUS` constant of the source. -/
def PLAYER_RADIUS : ℚ := 10

/-- The grid cell containing a world position (`Math.floor(p / CELL_SIZE)`). -/
def cellOf (x y : ℚ) : Cell := (⌊x / CELL_SIZE⌋, ⌊y / CELL_SIZE⌋)

/-- One corner test of `checkCollision`: out of grid bounds or a wall cell
(`gx < 0 || gy < 0 || gx >= maze.width || gy >= maze.height ||
maze.grid[gy][gx] === 1`). -/
def wallAt (m : MazeData) (c : Cell) : Bool :=
  decide (c.1 < 0 ∨ c.2 < 0 ∨ (m.width : ℤ) ≤ c.1 ∨ (m.height : ℤ) ≤ c.2 ∨ c ∉ m.floor)

/-- The four corners of the footprint inflated by `margin = PLAYER_RADIUS + 2`. -/
def corners (x y : ℚ) : List (ℚ × ℚ) :=
  let margin := PLAYER_RADIUS + 2
  [(x - margin, y - margin), (x + margin, y - margin),
   (x - margin, y + margin), (x + margin, y + margin)]

/-- `checkCollision(x, y, maze)`. -/
def checkCollision (x y : ℚ) (m : MazeData) : Bool :=
  (corners x y).any fun p => wallAt m (cellOf p.1 p.2)

/-- Helper: the floor of `q / 40` pinned to an integer cell. -/
lemma qfloor40 {q : ℚ} {c : ℤ} (h1 : 40 * (c : ℚ) ≤ q) (h2 : q < 40 * ((c : ℚ) + 1)) :
    ⌊q / (40 : ℚ)⌋ = c := by
  rw [Int.floor_eq_iff]
  constructor
  · rw [le_div_iff (by norm_num)]
    linarith
  · rw [div_lt_iff (by norm_num)]
    push_cast
    linarith

/-- The isolated-cell maze: a 3×3 grid whose only floor cell is the centre. -/
def mIso : MazeData :=
  { floor := {(1, 1)}, width := 3, height := 3, start := (0, 0), goal := (2, 2),
    traps := [], safeZones := [] }

/-- The open 3×3 maze: every cell is floor. -/
def mOpen : MazeData :=
  { floor := {(0,0),(1,0),(2,0),(0,1),(1,1),(2,1),(0,2),(1,2),(2,2)},
    width := 3, height := 3, start := (0, 0), goal := (2, 2),
    traps := [], safeZones := [] }

/-- C7 counterexample: at the centre of a floor cell completely surrounded by
walls, all four inflated corners still fall inside the same floor cell, so
`checkCollision` reports NOT blocked — the claim that such a position is
always rejected is false. -/
theorem c7_surrounded_cell_counterexample :
    cellOf 60 60 ∈ mIso.floor ∧
    (∀ p : Cell, adj (cellOf 60 60) p → wallAt mIso p = true) ∧
    checkCollision 60 60 mIso = false := by
  have hc : cellOf (60 : ℚ) 60 = (1, 1) := by
    unfold cellOf CELL_SIZE
    rw [qfloor40 (c := 1) (by norm_num) (by norm_num)]
  have h48 : ⌊(60 - (PLAYER_RADIUS + 2)) / CELL_SIZE⌋ = (1 : ℤ) := by
    unfold CELL_SIZE PLAYER_RADIUS
    exact qfloor40 (by norm_num) (by norm_num)
  have h72 : ⌊(60 + (PLAYER_RADIUS + 2)) / CELL_SIZE⌋ = (1 : ℤ) := by
    unfold CELL_SIZE PLAYER_RADIUS
    exact qfloor40 (by norm_num) (by norm_num)
  refine ⟨by rw [hc]; decide, ?_, ?_⟩
  · intro p hadj
    rw [hc] at hadj
    obtain ⟨a, b⟩ := p
    have hcases : (a = 0 ∧ b = 1) ∨ (a = 2 ∧ b = 1) ∨ (a = 1 ∧ b = 0) ∨ (a = 1 ∧ b = 2) := by
      simp only [adj] at hadj
      omega
    rcases hcases with ⟨rfl, rfl⟩ | ⟨rfl, rfl⟩ | ⟨rfl, rfl⟩ | ⟨rfl, rfl⟩ <;> decide
  · simp only [checkCollision, corners]
    rw [List.any_eq_false]
    intro p hp
    simp only [List.mem_cons, List.not_mem_nil, or_false] at hp
    rcases hp with rfl | rfl | rfl | rfl <;>
      · rw [Bool.not_eq_true]
        simp only [cellOf, h48, h72]
        decide

/-- Floor-of-division bounds used for corner cells. -/
lemma floor40_ge {u : ℚ} {c : ℤ} (h : 40 * (c : ℚ) ≤ u) : c ≤ ⌊u / (40 : ℚ)⌋ := by
  rw [Int.le_floor, le_div_iff (by norm_num)]
  linarith

lemma floor40_le {u : ℚ} {c : ℤ} (h : u < 40 * ((c : ℚ) + 1)) : ⌊u / (40 : ℚ)⌋ ≤ c := by
  have hlt : ⌊u / (40 : ℚ)⌋ < c + 1 := by
    rw [Int.floor_lt, div_lt_iff (by norm_num)]
    push_cast
    linarith
  omega

lemma wallAt_false_of (m : MazeData) {a b cx cy : ℤ}
    (ha1 : cx - 1 ≤ a) (ha2 : a ≤ cx + 1) (hb1 : cy - 1 ≤ b) (hb2 : b ≤ cy + 1)
    (hbx1 : 0 ≤ cx - 1) (hbx2 : cx + 1 < (m.width : ℤ))
    (hby1 : 0 ≤ cy - 1) (hby2 : cy + 1 < (m.height : ℤ))
    (hfloor : ∀ a2 b2 : ℤ, cx - 1 ≤ a2 → a2 ≤ cx + 1 → cy - 1 ≤ b2 → b2 ≤ cy + 1 →
      ((a2, b2) : Cell) ∈ m.floor) :
    wallAt m (a, b) = false := by
  simp only [wallAt, decide_eq_false_iff_not, not_or, not_lt, not_le, not_not]
  exact ⟨by omega, by omega, by omega, by omega, hfloor a b ha1 ha2 hb1 hb2⟩

/-- Part 1 of the amended C7: the check is true exactly when one of the four
inflated-footprint corners falls in a wall cell or outside grid bounds. -/
lemma collision_blocked_iff (m : MazeData) (x y : ℚ) :
    checkCollision x y m = true ↔
    ∃ p ∈ corners x y,
      ⌊p.1 / CELL_SIZE⌋ < 0 ∨ ⌊p.2 / CELL_SIZE⌋ < 0 ∨
      (m.width : ℤ) ≤ ⌊p.1 / CELL_SIZE⌋ ∨ (m.height : ℤ) ≤ ⌊p.2 / CELL_SIZE⌋ ∨
      (⌊p.1 / CELL_SIZE⌋, ⌊p.2 / CELL_SIZE⌋) ∉ m.floor := by
  simp only [checkCollision, List.any_eq_true, wallAt, cellOf, decide_eq_true_eq]

/-- Part 2 of the amended C7: a position inside the centre cell of an
in-bounds all-floor 3×3 neighbourhood is never blocked. -/
lemma collision_open3x3_false (m : MazeData) (x y : ℚ) (cx cy : ℤ)
    (hx1 : 40 * (cx : ℚ) ≤ x) (hx2 : x < 40 * ((cx : ℚ) + 1))
    (hy1 : 40 * (cy : ℚ) ≤ y) (hy2 : y < 40 * ((cy : ℚ) + 1))
    (hbx1 : 0 ≤ cx - 1) (hbx2 : cx + 1 < (m.width : ℤ))
    (hby1 : 0 ≤ cy - 1) (hby2 : cy + 1 < (m.height : ℤ))
    (hfloor : ∀ a b : ℤ, cx - 1 ≤ a → a ≤ cx + 1 → cy - 1 ≤ b → b ≤ cy + 1 →
      ((a, b) : Cell) ∈ m.floor) :
    checkCollision x y m = false := by
  have hxm1 : cx - 1 ≤ ⌊(x - (PLAYER_RADIUS + 2)) / CELL_SIZE⌋ := by
    unfold PLAYER_RADIUS CELL_SIZE
    exact floor40_ge (by push_cast; linarith)
  have hxm2 : ⌊(x - (PLAYER_RADIUS + 2)) / CELL_SIZE⌋ ≤ cx := by
    unfold PLAYER_RADIUS CELL_SIZE
    exact floor40_le (by push_cast; linarith)
  have hxp1 : cx ≤ ⌊(x + (PLAYER_RADIUS + 2)) / CELL_SIZE⌋ := by
    unfold PLAYER_RADIUS CELL_SIZE
    exact floor40_ge (by push_cast; linarith)
  have hxp2 : ⌊(x + (PLAYER_RADIUS + 2)) / CELL_SIZE⌋ ≤ cx + 1 := by
    unfold PLAYER_RADIUS CELL_SIZE
    exact floor40_le (by push_cast; linarith)
  have hym1 : cy - 1 ≤ ⌊(y - (PLAYER_RADIUS + 2)) / CELL_SIZE⌋ := by
    unfold PLAYER_RADIUS CELL_SIZE
    exact floor40_ge (by push_cast; linarith)
  have hym2 : ⌊(y - (PLAYER_RADIUS + 2)) / CELL_SIZE⌋ ≤ cy := by
    unfold PLAYER_RADIUS CELL_SIZE
    exact floor40_le (by push_cast; linarith)
  have hyp1 : cy ≤ ⌊(y + (PLAYER_RADIUS + 2)) / CELL_SIZE⌋ := by
    unfold PLAYER_RADIUS CELL_SIZE
    exact floor40_ge (by push_cast; linarith)
  have hyp2 : ⌊(y + (PLAYER_RADIUS + 2)) / CELL_SIZE⌋ ≤ cy + 1 := by
    unfold PLAYER_RADIUS CELL_SIZE
    exact floor40_le (by push_cast; linarith)
  simp only [checkCollision]
  rw [List.any_eq_false]
  intro p hp
  simp only [corners, List.mem_cons, List.not_mem_nil, or_false] at hp
  rcases hp with rfl | rfl | rfl | rfl <;>
    · rw [Bool.not_eq_true]
      dsimp only [cellOf]
      exact wallAt_false_of m (by omega) (by omega) (by omega) (by omega)
        hbx1 hbx2 hby1 hby2 hfloor

/-- Part 3 of the amended C7: inside a floor cell whose 4-neighbours are all
wall or out of bounds, a position whose inflated footprint extends beyond the
cell is blocked. -/
lemma collision_isolated_exits_true (m : MazeData) (x y : ℚ) (cx cy : ℤ)
    (hx1 : 40 * (cx : ℚ) ≤ x) (hx2 : x < 40 * ((cx : ℚ) + 1))
    (hy1 : 40 * (cy : ℚ) ≤ y) (hy2 : y < 40 * ((cy : ℚ) + 1))
    (hwall : ∀ p : Cell, adj (cx, cy) p → wallAt m p = true)
    (hexit : ¬ (40 * (cx : ℚ) + 12 ≤ x ∧ x + 12 < 40 * ((cx : ℚ) + 1) ∧
      40 * (cy : ℚ) + 12 ≤ y ∧ y + 12 < 40 * ((cy : ℚ) + 1))) :
    checkCollision x y m = true := by
  have hmargin : PLAYER_RADIUS + 2 = (12 : ℚ) := by unfold PLAYER_RADIUS; norm_num
  have hC : CELL_SIZE = (40 : ℚ) := rfl
  simp only [checkCollision, corners, hmargin, hC, List.any_eq_true]
  have hadj_left : adj (cx, cy) (cx - 1, cy) := by simp [adj]
  have hadj_right : adj (cx, cy) (cx + 1, cy) := by simp [adj]
  have hadj_up : adj (cx, cy) (cx, cy - 1) := by simp [adj]
  have hadj_down : adj (cx, cy) (cx, cy + 1) := by simp [adj]
  push_neg at hexit
  by_cases hxl : x < 40 * (cx : ℚ) + 12
  · -- footprint exits on the left: x - 12 lies in column cx - 1
    have hfx : ⌊(x - 12) / (40 : ℚ)⌋ = cx - 1 :=
      qfloor40 (by push_cast; linarith) (by push_cast; linarith)
    by_cases hyl : 40 * (cy : ℚ) + 12 ≤ y
    · -- corner (x-12, y-12) lies in row cy
      have hfy : ⌊(y - 12) / (40 : ℚ)⌋ = cy :=
        qfloor40 (by push_cast; linarith) (by push_cast; linarith)
      refine ⟨(x - 12, y - 12), by simp, ?_⟩
      simpa [cellOf, hC, hfx, hfy] using hwall (cx - 1, cy) hadj_left
    · -- corner (x-12, y+12) lies in row cy
      push_neg at hyl
      have hfy : ⌊(y + 12) / (40 : ℚ)⌋ = cy :=
        qfloor40 (by push_cast; linarith) (by push_cast; linarith)
      refine ⟨(x - 12, y + 12), by simp, ?_⟩
      simpa [cellOf, hC, hfx, hfy] using hwall (cx - 1, cy) hadj_left
  · push_neg at hxl
    by_cases hxr : 40 * ((cx : ℚ) + 1) ≤ x + 12
    · -- footprint exits on the right: x + 12 lies in column cx + 1
      have hfx : ⌊(x + 12) / (40 : ℚ)⌋ = cx + 1 :=
        qfloor40 (by push_cast; linarith) (by push_cast; linarith)
      by_cases hyl : 40 * (cy : ℚ) + 12 ≤ y
      · have hfy : ⌊(y - 12) / (40 : ℚ)⌋ = cy :=
          qfloor40 (by push_cast; linarith) (by push_cast; linarith)
        refine ⟨(x + 12, y - 12), by simp, ?_⟩
        simpa [cellOf, hC, hfx, hfy] using hwall (cx + 1, cy) hadj_right
      · push_neg at hyl
        have hfy : ⌊(y + 12) / (40 : ℚ)⌋ = cy :=
          qfloor40 (by push_cast; linarith) (by push_cast; linarith)
        refine ⟨(x + 12, y + 12), by simp, ?_⟩
        simpa [cellOf, hC, hfx, hfy] using hwall (cx + 1, cy) hadj_right
    · push_neg at hxr
      -- x is clear of both vertical walls, so y must exit
      have hfx : ⌊(x - 12) / (40 : ℚ)⌋ = cx :=
        qfloor40 (by push_cast; linarith) (by push_cast; linarith)
      by_cases hyt : y < 40 * (cy : ℚ) + 12
      · -- footprint exits at the top: y - 12 lies in row cy - 1
        have hfy : ⌊(y - 12) / (40 : ℚ)⌋ = cy - 1 :=
          qfloor40 (by push_cast; linarith) (by push_cast; linarith)
        refine ⟨(x - 12, y - 12), by simp, ?_⟩
        simpa [cellOf, hC, hfx, hfy] using hwall (cx, cy - 1) hadj_up
      · push_neg at hyt
        have hyb : 40 * ((cy : ℚ) + 1) ≤ y + 12 := hexit hxl hxr hyt
        -- footprint exits at the bottom: y + 12 lies in row cy + 1
        have hfy : ⌊(y + 12) / (40 : ℚ)⌋ = cy + 1 :=
          qfloor40 (by push_cast; linarith) (by push_cast; linarith)
        refine ⟨(x - 12, y + 12), by simp, ?_⟩
        simpa [cellOf, hC, hfx, hfy] using hwall (cx, cy + 1) hadj_down

/-- C7 (amended): (1) the collision check reports blocked exactly when one of
the four corners of the footprint inflated by the fixed margin falls in a
wall cell or outside grid bounds; (2) a position in the centre cell of an
in-bounds all-floor 3×3 neighbourhood is always accepted; (3) a position in a
floor cell whose 4-neighbours are all walls (or out of bounds) is rejected
whenever the inflated footprint extends beyond the cell — but not when the
footprint lies entirely inside the cell (see the counterexample). -/
theorem c7_collision_characterisation :
    (∀ (m : MazeData) (x y : ℚ),
      checkCollision x y m = true ↔
      ∃ p ∈ corners x y,
        ⌊p.1 / CELL_SIZE⌋ < 0 ∨ ⌊p.2 / CELL_SIZE⌋ < 0 ∨
        (m.width : ℤ) ≤ ⌊p.1 / CELL_SIZE⌋ ∨ (m.height : ℤ) ≤ ⌊p.2 / CELL_SIZE⌋ ∨
        (⌊p.1 / CELL_SIZE⌋, ⌊p.2 / CELL_SIZE⌋) ∉ m.floor) ∧
    (∀ (m : MazeData) (x y : ℚ) (cx cy : ℤ),
      40 * (cx : ℚ) ≤ x → x < 40 * ((cx : ℚ) + 1) →
      40 * (cy : ℚ) ≤ y → y < 40 * ((cy : ℚ) + 1) →
      0 ≤ cx - 1 → cx + 1 < (m.width : ℤ) → 0 ≤ cy - 1 → cy + 1 < (m.height : ℤ) →
      (∀ a b : ℤ, cx - 1 ≤ a → a ≤ cx + 1 → cy - 1 ≤ b → b ≤ cy + 1 →
        ((a, b) : Cell) ∈ m.floor) →
      checkCollision x y m = false) ∧
    (∀ (m : MazeData) (x y : ℚ) (cx cy : ℤ),
      40 * (cx : ℚ) ≤ x → x < 40 * ((cx : ℚ) + 1) →
      40 * (cy : ℚ) ≤ y → y < 40 * ((cy : ℚ) + 1) →
      (∀ p : Cell, adj (cx, cy) p → wallAt m p = true) →
      ¬ (40 * (cx : ℚ) + 12 ≤ x ∧ x + 12 < 40 * ((cx : ℚ) + 1) ∧
        40 * (cy : ℚ) + 12 ≤ y ∧ y + 12 < 40 * ((cy : ℚ) + 1)) →
      checkCollision x y m = true) :=
  ⟨collision_blocked_iff,
   fun m x y cx cy h1 h2 h3 h4 h5 h6 h7 h8 h9 =>
     collision_open3x3_false m x y cx cy h1 h2 h3 h4 h5 h6 h7 h8 h9,
   fun m x y cx cy h1 h2 h3 h4 h5 h6 =>
     collision_isolated_exits_true m x y cx cy h1 h2 h3 h4 h5 h6⟩

lemma mIso_walls : ∀ p : Cell, adj (1, 1) p → wallAt mIso p = true := by
  intro p hadj
  obtain ⟨a, b⟩ := p
  have hcases : (a = 0 ∧ b = 1) ∨ (a = 2 ∧ b = 1) ∨ (a = 1 ∧ b = 0) ∨ (a = 1 ∧ b = 2) := by
    simp only [adj] at hadj
    omega
  rcases hcases with ⟨rfl, rfl⟩ | ⟨rfl, rfl⟩ | ⟨rfl, rfl⟩ | ⟨rfl, rfl⟩ <;> decide

theorem c7_collision_characterisation_witness :
    checkCollision 60 60 mOpen = false ∧ checkCollision 44 60 mIso = true :=
  ⟨c7_collision_characterisation.2.1 mOpen 60 60 1 1
      (by norm_num) (by norm_num) (by norm_num) (by norm_num)
      (by norm_num) (by norm_num [mOpen]) (by norm_num) (by norm_num [mOpen])
      (by
        intro a b h1 h2 h3 h4
        have ha : a = 0 ∨ a = 1 ∨ a = 2 := by omega
        have hb : b = 0 ∨ b = 1 ∨ b = 2 := by omega
        rcases ha with rfl | rfl | rfl <;> rcases hb with rfl | rfl | rfl <;> decide),
   c7_collision_characterisation.2.2 mIso 44 60 1 1
      (by norm_num) (by norm_num) (by norm_num) (by norm_num)
      mIso_walls
      (by norm_num)⟩

/-! ### RoomRelay (the websocket server) -/

/-- A player entry as stored by the server on `JOIN_ROOM` (`angle` starts 0). -/
structure NetPlayer where
  pid : String
  x : ℚ
  y : ℚ
  angle : ℚ
  color : String
deriving DecidableEq

/-- A room: player map (insertion-ordered association list, modelling the JS
object) and the maze payload submitted by the first joiner (opaque token). -/
structure Room where
  players : List (String × NetPlayer)
  maze : Option ℕ
deriving DecidableEq

/-- A websocket connection with its per-connection `currentRoomId` /
`playerId` variables. -/
structure Conn where
  cid : ℕ
  roomId : Option String
  playerId : Option String
  isOpen : Bool
deriving DecidableEq

/-- The server state: the `rooms` map and the set of connections. -/
structure SrvState where
  rooms : List (String × Room)
  conns : List Conn
deriving DecidableEq

/-- Parsed client messages (`message.type` dispatch). -/
inductive ClientMsg
  | joinRoom (roomId playerId : String) (maze : Option ℕ) (x y : ℚ) (color : String)
  | updatePosition (x y angle : ℚ)
  | win (time : ℚ)
  | other
deriving DecidableEq

/-- A raw incoming frame: either JSON that parses (to a typed or unknown
message) or a frame on which `JSON.parse` throws. -/
inductive RawMsg
  | parsed (m : ClientMsg)
  | malformed

/-- Server-to-client messages. -/
inductive OutMsg
  | playerJoined (players : List (String × NetPlayer)) (maze : Option ℕ)
  | stateUpdate (players : List (String × NetPlayer))
  | playerLeft (playerId : String)
  | gameOver (winnerId : Option String) (time : ℚ)
deriving DecidableEq

/-- Insert-or-replace in an association list (JS object property set). -/
def upsert {α : Type} (k : String) (v : α) : List (String × α) → List (String × α)
  | [] => [(k, v)]
  | (k2, v2) :: t => if k2 = k then (k, v) :: t else (k2, v2) :: upsert k v t

/-- Association-list lookup on string keys. -/
def alookup {α : Type} (k : String) (l : List (String × α)) : Option α :=
  (l.find? (fun e => decide (e.1 = k))).map (·.2)

/-- `broadcastToRoom`: sends to EVERY open connection (except an optional
excluded sender) — the room id is accepted but never consulted, exactly as in
the source ("we'll just send to all for now"). -/
def broadcast (st : SrvState) (msg : OutMsg) (exclude : Option ℕ) : List (ℕ × OutMsg) :=
  (st.conns.filter (fun c => c.isOpen && decide (exclude ≠ some c.cid))).map
    (fun c => (c.cid, msg))

/-- The connection record for a given id. -/
def connOf (st : SrvState) (cid : ℕ) : Option Conn :=
  st.conns.find? (fun c => decide (c.cid = cid))

/-- The room a connection has joined, if any. -/
def connRoom (st : SrvState) (cid : ℕ) : Option String :=
  match connOf st cid with
  | some c => c.roomId
  | none => none

/-- The `ws.on("message")` handler.  `none` models the uncaught exception
thrown by `JSON.parse` on a malformed frame. -/
def handleMessage (st : SrvState) (cid : ℕ) (raw : RawMsg) :
    Option (SrvState × List (ℕ × OutMsg)) :=
  match raw with
  | .malformed => none
  | .parsed m =>
      match m with
      | .joinRoom r p mz x y col =>
          let conns2 := st.conns.map fun c =>
            if c.cid = cid then { c with roomId := some r, playerId := some p } else c
          let rooms1 :=
            if (alookup r st.rooms).isSome then st.rooms
            else st.rooms ++ [(r, { players := [], maze := mz })]
          let rooms2 := rooms1.map fun e =>
            if e.1 = r then (e.1, { e.2 with players := upsert p ⟨p, x, y, 0, col⟩ e.2.players })
            else e
          let st2 : SrvState := { rooms := rooms2, conns := conns2 }
          match alookup r rooms2 with
          | some room => some (st2, broadcast st2 (.playerJoined room.players room.maze) none)
          | none => some (st2, [])
      | .updatePosition x y ang =>
          match connOf st cid with
          | some c =>
              match c.roomId, c.playerId with
              | some r, some p =>
                  match alookup r st.rooms with
                  | some room =>
                      if (alookup p room.players).isSome then
                        let room2 : Room :=
                          { room with players := room.players.map fun e =>
                              if e.1 = p then (e.1, { e.2 with x := x, y := y, angle := ang })
                              else e }
                        let st2 : SrvState :=
                          { st with rooms := st.rooms.map fun e =>
                              if e.1 = r then (e.1, room2) else e }
                        some (st2, broadcast st2 (.stateUpdate room2.players) (some cid))
                      else some (st, [])
                  | none => some (st, [])
              | _, _ => some (st, [])
          | none => some (st, [])
      | .win t =>
          match connOf st cid with
          | some c =>
              match c.roomId with
              | some _ => some (st, broadcast st (.gameOver c.playerId t) none)
              | none => some (st, [])
          | none => some (st, [])
      | .other => some (st, [])

/-- The `ws.on("close")` handler. -/
def handleClose (st : SrvState) (cid : ℕ) : SrvState × List (ℕ × OutMsg) :=
  let stc : SrvState :=
    { st with conns := st.conns.map fun c => if c.cid = cid then { c with isOpen := false } else c }
  match connOf st cid with
  | some c =>
      match c.roomId, c.playerId with
      | some r, some p =>
          match alookup r stc.rooms with
          | some room =>
              let players2 := room.players.filter fun e => decide (e.1 ≠ p)
              if players2.isEmpty then
                ({ stc with rooms := stc.rooms.filter fun e => decide (e.1 ≠ r) }, [])
              else
                let st2 : SrvState :=
                  { stc with rooms := stc.rooms.map fun e =>
                      if e.1 = r then (e.1, { e.2 with players := players2 }) else e }
                (st2, broadcast st2 (.playerLeft p) none)
          | none => (stc, [])
      | _, _ => (stc, [])
  | none => (stc, [])

/-- Two fresh connections, no rooms. -/
def relayS0 : SrvState :=
  { rooms := [],
    conns := [⟨1, none, none, true⟩, ⟨2, none, none, true⟩] }

/-- After connection 1 joins room A. -/
def relayS1 : SrvState :=
  ((handleMessage relayS0 1 (.parsed (.joinRoom "A" "p1" (some 7) 0 0 "g"))).getD
    (relayS0, [])).1

/-- After connection 2 joins room B. -/
def relayS2 : SrvState :=
  ((handleMessage relayS1 2 (.parsed (.joinRoom "B" "p2" (some 9) 0 0 "r"))).getD
    (relayS1, [])).1

/-- The sends produced when connection 1 (room A) reports a WIN. -/
def relayWinSends : List (ℕ × OutMsg) :=
  ((handleMessage relayS2 1 (.parsed (.win 5))).getD (relayS2, [])).2

/-- C1: the relay's broadcast is NOT room-scoped.  With connection 1 joined
to room A and connection 2 joined to room B (disjoint member sets), the
GAME_OVER broadcast for room A's WIN is delivered to connection 2, which
never joined room A.  (Equally, connection 1 receives room B's
PLAYER_JOINED.)  `broadcastToRoom` iterates `wss.clients` and ignores room
membership, as its own comment admits. -/
theorem c1_broadcast_leaks_across_rooms :
    connRoom relayS2 1 = some "A" ∧
    connRoom relayS2 2 = some "B" ∧
    (2, OutMsg.gameOver (some "p1") 5) ∈ relayWinSends := by
  refine ⟨by decide, by decide, ?_⟩
  decide

/-- C8: an incoming message that parses but has an unrecognised `type` is
ignored (no crash, no state change, no broadcast); but a frame on which
`JSON.parse` throws crashes the handler (there is no try/catch), modelled by
`none`. -/
theorem c8_unknown_ignored_malformed_crashes :
    (∀ (st : SrvState) (cid : ℕ), handleMessage st cid (.parsed .other) = some (st, [])) ∧
    (∀ (st : SrvState) (cid : ℕ), handleMessage st cid .malformed = none) :=
  ⟨fun _ _ => rfl, fun _ _ => rfl⟩

/-! ### The client game state machine (the main React component)

The embedding models the component's `useState` fields that participate in
the game logic.  Omitted (visual/telemetry-only, never read by transitions):
the remote `players` roster, `aiPos` heading, audio engine calls,
`safeZonesVisible`, `shopStartTime`/`shopLatencies`/`shopChoiceTime`'s
numeric value (only its null-ness gates the shop buttons), `mazesCompleted`,
`phaseMazes`, `subjectId`, `debugMode` and the debug keyboard / host
`SKIP_PHASE` hooks (testing affordances outside the specified machine).
Timers tick in exact tenths (the 100 ms interval), positions and clocks are
rationals, `targetAngle` is stored in quarter turns (the source only ever
assigns multiples of π/2, normalised to (−π, π], i.e. {−1,0,1,2} quarters),
and the AI's floating-point pursuit step is modelled by a nondeterministic
new position while its catch test (distance below 10) is exact. -/

def TRAP_CYCLE_TIME : ℚ := 8

def PHASE_DURATION : ℚ := 300

def SHOP_DURATION : ℚ := 30

def DISTRACTOR_DURATION : ℚ := 120

def PRACTICE_DURATION : ℚ := 30

inductive GState
  | lobby | tutorial | practice | playing | shop | distractor
  | won | lost | respawning | gameover
deriving DecidableEq

inductive TStep
  | intro | example | practiceStep | phase2 | phase3
deriving DecidableEq

/-- The model's random/identity parameters: per-`initGame` random streams for
the generator, a boolean stream for the `Math.random() > 0.5` draws (phase-2
flash colour, shop gamble), and this client's id. -/
structure Params where
  myId : String
  dirRs : ℕ → ℕ → List Cell
  trapRs : ℕ → ℕ → Cell
  sfRs : ℕ → ℕ → Cell
  bools : ℕ → Bool

/-- The session state. -/
structure GS where
  gameState : GState
  tutorialStep : TStep
  phase : ℕ
  phaseTime : ℚ
  practiceTimer : ℚ
  shopTimer : ℚ
  distractorTimer : ℚ
  trapTimer : ℚ
  wipeTimer : ℚ
  time : ℚ
  coins : ℤ
  difficulty : ℚ
  maze : Option MazeData
  posX : ℚ
  posY : ℚ
  targetAngle : ℤ
  flashYellow : Bool
  winner : Option (String × ℚ)
  respawnPending : Option GState
  confirmPending : Bool
  shopChosen : Bool
  surveyDone : Bool
  genCount : ℕ
  boolIdx : ℕ
  aiPos : Option (ℚ × ℚ)

/-- The initial state (the component's `useState` initialisers). -/
def initGS : GS :=
  { gameState := .lobby, tutorialStep := .intro, phase := 1,
    phaseTime := PHASE_DURATION, practiceTimer := PRACTICE_DURATION,
    shopTimer := SHOP_DURATION, distractorTimer := DISTRACTOR_DURATION,
    trapTimer := TRAP_CYCLE_TIME, wipeTimer := 30, time := 0, coins := 0,
    difficulty := 1, maze := none, posX := 0, posY := 0, targetAngle := 0,
    flashYellow := true, winner := none, respawnPending := none,
    confirmPending := false, shopChosen := false, surveyDone := false,
    genCount := 0, boolIdx := 0, aiPos := none }

/-- `12 + Math.floor(d * 1.5)` (clamped at 0; the source would throw on a
negative array size, which is unreachable since difficulty starts at 1 and
never decreases below it). -/
def mazeSize (d : ℚ) : ℕ := (12 + ⌊d * (3 / 2)⌋).toNat

/-- `initGame(newDifficulty?, targetState)` — every call site passes
`undefined` for the difficulty, so `d` is always the current difficulty. -/
def initGame (P : Params) (s : GS) (target : GState) : GS :=
  let d := s.difficulty
  let size := mazeSize d
  match generateMaze size size d (P.dirRs s.genCount) (P.trapRs s.genCount)
      (P.sfRs s.genCount) with
  | some m =>
      { s with
        maze := some m,
        posX := (m.start.1 : ℚ) * CELL_SIZE + CELL_SIZE / 2,
        posY := (m.start.2 : ℚ) * CELL_SIZE + CELL_SIZE / 2,
        targetAngle := 0,
        gameState := target,
        time := 0,
        trapTimer := TRAP_CYCLE_TIME + (⌊d / 2⌋ : ℤ),
        winner := none,
        aiPos := none,
        shopChosen := false,
        distractorTimer := DISTRACTOR_DURATION,
        wipeTimer := 10 + (⌊d / 2⌋ : ℤ),
        genCount := s.genCount + 1 }
  | none => { s with genCount := s.genCount + 1 }

/-- `respawn()`: no-op when the maze is null; otherwise enter `respawning`
and arm the 1 s one-shot that returns to the state active at call time. -/
def respawnStart (s : GS) : GS :=
  if s.maze = none then s
  else
    { s with
      gameState := .respawning,
      respawnPending := some (if s.gameState = .practice then GState.practice else .playing) }

/-- The respawn timeout fires: reset the position to the maze start and
return to the recorded state. -/
def respawnDone (s : GS) (t : GState) : GS :=
  match s.maze with
  | some m =>
      { s with
        posX := (m.start.1 : ℚ) * CELL_SIZE + CELL_SIZE / 2,
        posY := (m.start.2 : ℚ) * CELL_SIZE + CELL_SIZE / 2,
        targetAngle := 0, gameState := t, respawnPending := none }
  | none => { s with gameState := t, respawnPending := none }

/-- Is the player's current cell a safe zone (`safeZones.some(...)`; false
when the maze is null)? -/
def inSafeZone (s : GS) : Bool :=
  match s.maze with
  | some m => decide ((⌊s.posX / CELL_SIZE⌋, ⌊s.posY / CELL_SIZE⌋) ∈ m.safeZones)
  | none => false

/-- The phase-3 wipe section of the 100 ms interval. -/
def wipeStep (s : GS) : GS :=
  if s.wipeTimer ≤ 1 / 10 then
    let sb := if inSafeZone s then s else respawnStart s
    { sb with wipeTimer := 10 + (⌊sb.difficulty / 2⌋ : ℤ) }
  else { s with wipeTimer := s.wipeTimer - 1 / 10 }

/-- The trap-cycle section of the 100 ms interval (`p0` is the phase
snapshot captured by the effect closure). -/
def trapStep (P : Params) (s : GS) (p0 : ℕ) : GS :=
  if s.trapTimer ≤ 1 / 10 then
    let sc :=
      if p0 = 2 then { s with flashYellow := ! P.bools s.boolIdx, boolIdx := s.boolIdx + 1 }
      else s
    { sc with trapTimer := TRAP_CYCLE_TIME + (⌊sc.difficulty / 2⌋ : ℤ) }
  else { s with trapTimer := s.trapTimer - 1 / 10 }

/-- The hazard half of the interval: wipe (phase 3 only) then trap cycle,
only while the snapshot state is `playing`/`practice`. -/
def hazardTick (P : Params) (s : GS) : GS :=
  if s.gameState = .playing ∨ s.gameState = .practice then
    trapStep P (if s.phase = 3 then wipeStep s else s) s.phase
  else s

/-- The clock half of the interval, keyed on the snapshot `g0`/`p0`. -/
def clockTick (P : Params) (s1 : GS) (g0 : GState) (p0 : ℕ) : GS :=
  if g0 = .playing then
    let s2 := { s1 with time := s1.time + 1 / 10 }
    if s2.phaseTime ≤ 1 / 10 then
      if p0 < 3 then
        { s2 with gameState := .shop, shopTimer := SHOP_DURATION, phaseTime := PHASE_DURATION }
      else { s2 with gameState := .gameover, phaseTime := 0 }
    else { s2 with phaseTime := s2.phaseTime - 1 / 10 }
  else if g0 = .practice then
    if s1.practiceTimer ≤ 1 / 10 then { initGame P s1 .playing with practiceTimer := 0 }
    else { s1 with practiceTimer := s1.practiceTimer - 1 / 10 }
  else if g0 = .shop then
    if s1.shopTimer ≤ 1 / 10 then { s1 with gameState := .distractor, shopTimer := 0 }
    else { s1 with shopTimer := s1.shopTimer - 1 / 10 }
  else if g0 = .distractor then
    if s1.distractorTimer ≤ 1 / 10 then
      if p0 + 1 = 2 ∨ p0 + 1 = 3 then
        { s1 with
          phase := p0 + 1, gameState := .tutorial,
          tutorialStep := if p0 + 1 = 2 then .phase2 else .phase3, distractorTimer := 0 }
      else { initGame P { s1 with phase := p0 + 1 } .playing with distractorTimer := 0 }
    else { s1 with distractorTimer := s1.distractorTimer - 1 / 10 }
  else s1

/-- One 100 ms tick of the main interval. -/
def slowTick (P : Params) (s : GS) : GS :=
  clockTick P (hazardTick P s) s.gameState s.phase

/-- `(sin(kπ/2), -cos(kπ/2))` for a quarter-turn count `k ∈ {-1,0,1,2}`. -/
def quarterVec (k : ℤ) : ℚ × ℚ :=
  if k = 0 then (0, -1)
  else if k = 1 then (1, 0)
  else if k = 2 then (0, 1)
  else (-1, 0)

/-- Normalise a quarter-turn count into `{-1, 0, 1, 2}` (the source's
while-loops normalising into `(-π, π]`). -/
def norm4 (a : ℤ) : ℤ :=
  let r := a % 4
  if r = 3 then -1 else r

inductive KeyDir
  | up | down | left | right
deriving DecidableEq

/-- The keydown handler: screen-relative target-heading update (gated to
`playing`/`practice` with a maze present). -/
def keyDown (s : GS) (d : KeyDir) : GS :=
  if (s.gameState = .playing ∨ s.gameState = .practice) ∧ s.maze ≠ none then
    { s with targetAngle :=
        norm4 (s.targetAngle +
          match d with
          | .up => 0
          | .down => 2
          | .left => -1
          | .right => 1) }
  else s

/-- One 16 ms motion tick.  `mv` models "some directional key is held".  The
heading lerp is omitted (it only drives the rendered angle; movement always
uses the target heading).  The candidate X and Y moves are collision-tested
independently (against `(nextX, prev.y)` and `(prev.x, nextY)`), then the
phase-2 freeze check fires before the win check, exactly as in the source. -/
def motionTick (P : Params) (s : GS) (mv : Bool) : GS :=
  if s.gameState = .playing ∨ s.gameState = .practice then
    match s.maze with
    | some m =>
        if mv then
          let speed : ℚ := 4 * (1 + (s.difficulty - 1) * (1 / 20))
          let dir := quarterVec s.targetAngle
          let nx := if checkCollision (s.posX + dir.1 * speed) s.posY m then s.posX
                    else s.posX + dir.1 * speed
          let ny := if checkCollision s.posX (s.posY + dir.2 * speed) m then s.posY
                    else s.posY + dir.2 * speed
          if s.phase = 2 ∧ s.trapTimer ≤ (if s.flashYellow then 3 else 1) then
            respawnStart s
          else
            let sWin :=
              if (⌊nx / CELL_SIZE⌋, ⌊ny / CELL_SIZE⌋) = m.goal then
                if s.gameState = .practice then respawnStart s
                else
                  { s with
                    coins := s.coins + max 1 (min 5 ⌊30 / (s.time + 1)⌋),
                    gameState := .won,
                    winner := some (P.myId, s.time),
                    difficulty :=
                      min (s.difficulty + (if s.time < 20 then 1 else 1 / 2)) 10 }
              else s
            { sWin with posX := nx, posY := ny }
        else s
    | none => s
  else s

/-- One 50 ms AI tick.  The pursuit target is the maze end (phases 1–2) or
the live player (phase 3); the catch test (Euclidean distance below 10) is
exact on squares; the floating-point step toward the target is modelled by a
nondeterministic next position `q`. -/
def aiTick (s : GS) (q : ℚ × ℚ) : GS :=
  if (s.gameState = .playing ∨ s.gameState = .practice) ∧ s.maze ≠ none then
    match s.maze with
    | some m =>
        let tgt : ℚ × ℚ :=
          if s.phase = 3 then (s.posX, s.posY)
          else ((m.goal.1 : ℚ) * CELL_SIZE + CELL_SIZE / 2,
                (m.goal.2 : ℚ) * CELL_SIZE + CELL_SIZE / 2)
        let cur : ℚ × ℚ :=
          match s.aiPos with
          | some a => a
          | none =>
              if s.phase = 3 then
                ((m.goal.1 : ℚ) * CELL_SIZE + CELL_SIZE / 2,
                 (m.goal.2 : ℚ) * CELL_SIZE + CELL_SIZE / 2)
              else
                ((m.start.1 : ℚ) * CELL_SIZE + CELL_SIZE / 2,
                 (m.start.2 : ℚ) * CELL_SIZE + CELL_SIZE / 2)
        if (tgt.1 - cur.1) ^ 2 + (tgt.2 - cur.2) ^ 2 < 100 then
          if s.gameState = .practice then respawnStart s
          else { s with gameState := .lost, winner := some ("AI-GHOST", s.time) }
        else { s with aiPos := some q }
    | none => s
  else s

/-- The `GAME_OVER` network handler: won/lost by winner identity; winning
scales difficulty by +0.5 clamped at 10. -/
def recvGameOver (P : Params) (s : GS) (wid : String) (t : ℚ) : GS :=
  { s with
    gameState := if wid = P.myId then .won else .lost,
    winner := some (wid, t),
    difficulty := if wid = P.myId then min (s.difficulty + 1 / 2) 10 else s.difficulty }

/-- The `PLAYER_JOINED` network handler: adopts the broadcast maze only when
the local maze is still null. -/
def recvPlayerJoined (s : GS) (mz : Option MazeData) : GS :=
  match mz, s.maze with
  | some m, none => { s with maze := some m }
  | _, _ => s

/-- The lobby button (subject id provided). -/
def uiStart (s : GS) : GS := { s with gameState := .tutorial, tutorialStep := .intro }

/-- The tutorial button. -/
def tutorialBtn (P : Params) (s : GS) : GS :=
  match s.tutorialStep with
  | .intro => { s with tutorialStep := .example }
  | .example | .phase2 | .phase3 =>
      { initGame P s .practice with practiceTimer := PRACTICE_DURATION }
  | .practiceStep => initGame P s .playing

/-- The fixed-cost shop option (enabled when coins ≥ 2 and no choice made):
spend 2 coins and arm the 500 ms switch to `distractor`. -/
def shopBuy (s : GS) : GS :=
  { s with coins := s.coins - 2, shopChosen := true, confirmPending := true }

/-- The gamble (enabled when coins ≥ 5): double or zero, then the same
500 ms switch. -/
def shopGamble (P : Params) (s : GS) : GS :=
  { s with
    coins := if P.bools s.boolIdx then s.coins * 2 else 0,
    boolIdx := s.boolIdx + 1, shopChosen := true, confirmPending := true }

/-- The 500 ms shop-confirmation timeout fires. -/
def confirmDone (s : GS) : GS :=
  { s with gameState := .distractor, confirmPending := false }

/-- The audio-survey completion: record it, arm the practice timer and start
a practice session. -/
def surveyComplete (P : Params) (s : GS) : GS :=
  { initGame P { s with surveyDone := true } .practice with
    practiceTimer := PRACTICE_DURATION }

/-- The transition relation of the session.  Guards encode when each handler
is live: the 100 ms interval only runs in the four timer states; motion, key
and AI handlers only act in `playing`/`practice` (their guards are inside
the functions); the respawn and shop-confirmation one-shots fire while their
pending flag is set — the 500 ms confirmation delay cannot outlive the 30 s
shop window plus the 120 s distractor window, which the guard on
`confirmFire` encodes. -/
inductive Step (P : Params) : GS → GS → Prop
  | slow (s : GS) :
      (s.gameState = .playing ∨ s.gameState = .practice ∨
        s.gameState = .shop ∨ s.gameState = .distractor) →
      Step P s (slowTick P s)
  | move (s : GS) (mv : Bool) : Step P s (motionTick P s mv)
  | key (s : GS) (d : KeyDir) : Step P s (keyDown s d)
  | ai (s : GS) (q : ℚ × ℚ) : Step P s (aiTick s q)
  | netOver (s : GS) (wid : String) (t : ℚ) : Step P s (recvGameOver P s wid t)
  | netJoined (s : GS) (mz : Option MazeData) : Step P s (recvPlayerJoined s mz)
  | respawnFire (s : GS) (t : GState) :
      s.respawnPending = some t → Step P s (respawnDone s t)
  | confirmFire (s : GS) :
      s.confirmPending = true →
      (s.gameState = .shop ∨ s.gameState = .distractor) →
      Step P s (confirmDone s)
  | lobbyStart (s : GS) : s.gameState = .lobby → Step P s (uiStart s)
  | tutorialNext (s : GS) : s.gameState = .tutorial → Step P s (tutorialBtn P s)
  | buy (s : GS) :
      s.gameState = .shop → 2 ≤ s.coins → s.shopChosen = false → Step P s (shopBuy s)
  | gamble (s : GS) :
      s.gameState = .shop → 5 ≤ s.coins → s.shopChosen = false → Step P s (shopGamble P s)
  | next (s : GS) :
      (s.gameState = .won ∨ s.gameState = .lost) → Step P s (initGame P s .playing)
  | survey (s : GS) :
      s.surveyDone = false → s.gameState ≠ .lobby → Step P s (surveyComplete P s)
  | trapHit (s : GS) (m : MazeData) :
      (s.gameState = .playing ∨ s.gameState = .practice) → s.phase = 1 →
      s.maze = some m → (⌊s.posX / CELL_SIZE⌋, ⌊s.posY / CELL_SIZE⌋) ∈ m.traps →
      s.trapTimer < 1 / 2 → Step P s (respawnStart s)

/-- Reachability from the initial state. -/
def Reachable (P : Params) : GS → Prop :=
  Relation.ReflTransGen (Step P) initGS

/-! ### Frame facts for the interval handlers -/

/-- What the hazard half of the 100 ms interval (wipe + trap cycle) can do to
the session state: every clock- and progression-related field is untouched;
`gameState` can only move to `respawning`, and `respawnPending` can only be
armed with a `practice`/`playing` return target. -/
structure FrameH (s s' : GS) : Prop where
  phase : s'.phase = s.phase
  difficulty : s'.difficulty = s.difficulty
  maze : s'.maze = s.maze
  genCount : s'.genCount = s.genCount
  practiceTimer : s'.practiceTimer = s.practiceTimer
  phaseTime : s'.phaseTime = s.phaseTime
  shopTimer : s'.shopTimer = s.shopTimer
  distractorTimer : s'.distractorTimer = s.distractorTimer
  confirmPending : s'.confirmPending = s.confirmPending
  time : s'.time = s.time
  coins : s'.coins = s.coins
  posX : s'.posX = s.posX
  posY : s'.posY = s.posY
  gameState : s'.gameState = s.gameState ∨ s'.gameState = GState.respawning
  respawnPending : s'.respawnPending = s.respawnPending ∨
    s'.respawnPending = some GState.practice ∨ s'.respawnPending = some GState.playing

lemma frameH_refl (s : GS) : FrameH s s :=
  ⟨rfl, rfl, rfl, rfl, rfl, rfl, rfl, rfl, rfl, rfl, rfl, rfl, rfl, Or.inl rfl, Or.inl rfl⟩

lemma frameH_trans {a b c : GS} (h1 : FrameH a b) (h2 : FrameH b c) : FrameH a c := by
  refine ⟨h2.phase.trans h1.phase, h2.difficulty.trans h1.difficulty, h2.maze.trans h1.maze,
    h2.genCount.trans h1.genCount, h2.practiceTimer.trans h1.practiceTimer,
    h2.phaseTime.trans h1.phaseTime, h2.shopTimer.trans h1.shopTimer,
    h2.distractorTimer.trans h1.distractorTimer, h2.confirmPending.trans h1.confirmPending,
    h2.time.trans h1.time, h2.coins.trans h1.coins, h2.posX.trans h1.posX,
    h2.posY.trans h1.posY, ?_, ?_⟩
  · rcases h2.gameState with h | h
    · rw [h]; exact h1.gameState
    · exact Or.inr h
  · rcases h2.respawnPending with h | h
    · rw [h]; exact h1.respawnPending
    · exact Or.inr h

lemma frameH_respawnStart (s : GS) : FrameH s (respawnStart s) := by
  unfold respawnStart
  split
  · exact frameH_refl s
  · by_cases hp : s.gameState = GState.practice <;>
      exact ⟨rfl, rfl, rfl, rfl, rfl, rfl, rfl, rfl, rfl, rfl, rfl, rfl, rfl, Or.inr rfl,
        by simp [hp]⟩

lemma frameH_wipeStep (s : GS) : FrameH s (wipeStep s) := by
  unfold wipeStep
  split
  · by_cases hz : inSafeZone s = true
    · rw [if_pos hz]
      exact ⟨rfl, rfl, rfl, rfl, rfl, rfl, rfl, rfl, rfl, rfl, rfl, rfl, rfl, Or.inl rfl,
        Or.inl rfl⟩
    · rw [if_neg hz]
      have h := frameH_respawnStart s
      exact ⟨h.phase, h.difficulty, h.maze, h.genCount, h.practiceTimer, h.phaseTime,
        h.shopTimer, h.distractorTimer, h.confirmPending, h.time, h.coins, h.posX, h.posY,
        h.gameState, h.respawnPending⟩
  · exact ⟨rfl, rfl, rfl, rfl, rfl, rfl, rfl, rfl, rfl, rfl, rfl, rfl, rfl, Or.inl rfl,
      Or.inl rfl⟩

lemma frameH_trapStep (P : Params) (s : GS) (p0 : ℕ) : FrameH s (trapStep P s p0) := by
  unfold trapStep
  split
  · by_cases h2 : p0 = 2
    · rw [if_pos h2]
      exact ⟨rfl, rfl, rfl, rfl, rfl, rfl, rfl, rfl, rfl, rfl, rfl, rfl, rfl, Or.inl rfl,
        Or.inl rfl⟩
    · rw [if_neg h2]
      exact ⟨rfl, rfl, rfl, rfl, rfl, rfl, rfl, rfl, rfl, rfl, rfl, rfl, rfl, Or.inl rfl,
        Or.inl rfl⟩
  · exact ⟨rfl, rfl, rfl, rfl, rfl, rfl, rfl, rfl, rfl, rfl, rfl, rfl, rfl, Or.inl rfl,
      Or.inl rfl⟩

lemma frameH_hazard (P : Params) (s : GS) : FrameH s (hazardTick P s) := by
  unfold hazardTick
  split
  · by_cases h3 : s.phase = 3
    · rw [if_pos h3]
      exact frameH_trans (frameH_wipeStep s) (frameH_trapStep P (wipeStep s) s.phase)
    · rw [if_neg h3]
      exact frameH_trapStep P s s.phase
  · exact frameH_refl s

lemma hazardTick_id (P : Params) {s : GS}
    (h : ¬(s.gameState = GState.playing ∨ s.gameState = GState.practice)) :
    hazardTick P s = s := by
  unfold hazardTick
  rw [if_neg h]

/-! ### The branches of the clock half of the interval -/

lemma clockTick_playing (P : Params) (s1 : GS) (p0 : ℕ) :
    clockTick P s1 GState.playing p0 =
      if s1.phaseTime ≤ 1 / 10 then
        if p0 < 3 then
          { s1 with
            time := s1.time + 1 / 10, gameState := GState.shop,
            shopTimer := SHOP_DURATION, phaseTime := PHASE_DURATION }
        else
          { s1 with time := s1.time + 1 / 10, gameState := GState.gameover, phaseTime := 0 }
      else { s1 with time := s1.time + 1 / 10, phaseTime := s1.phaseTime - 1 / 10 } := rfl

lemma clockTick_practice (P : Params) (s1 : GS) (p0 : ℕ) :
    clockTick P s1 GState.practice p0 =
      if s1.practiceTimer ≤ 1 / 10 then { initGame P s1 GState.playing with practiceTimer := 0 }
      else { s1 with practiceTimer := s1.practiceTimer - 1 / 10 } := rfl

lemma clockTick_shop (P : Params) (s1 : GS) (p0 : ℕ) :
    clockTick P s1 GState.shop p0 =
      if s1.shopTimer ≤ 1 / 10 then { s1 with gameState := GState.distractor, shopTimer := 0 }
      else { s1 with shopTimer := s1.shopTimer - 1 / 10 } := rfl

lemma clockTick_distractor (P : Params) (s1 : GS) (p0 : ℕ) :
    clockTick P s1 GState.distractor p0 =
      if s1.distractorTimer ≤ 1 / 10 then
        if p0 + 1 = 2 ∨ p0 + 1 = 3 then
          { s1 with
            phase := p0 + 1, gameState := GState.tutorial,
            tutorialStep := if p0 + 1 = 2 then TStep.phase2 else TStep.phase3,
            distractorTimer := 0 }
        else { initGame P { s1 with phase := p0 + 1 } GState.playing with distractorTimer := 0 }
      else { s1 with distractorTimer := s1.distractorTimer - 1 / 10 } := rfl

/-- `initGame` always takes the `some` branch (the generator always
succeeds), so it installs the target state and a freshly generated maze while
leaving phase, difficulty, coins and the pending flags alone. -/
lemma initGame_proj (P : Params) (s : GS) (t : GState) :
    (initGame P s t).gameState = t ∧ (initGame P s t).phase = s.phase ∧
    (initGame P s t).difficulty = s.difficulty ∧
    (initGame P s t).respawnPending = s.respawnPending ∧
    (initGame P s t).confirmPending = s.confirmPending ∧
    (initGame P s t).coins = s.coins ∧
    (initGame P s t).maze =
      generateMaze (mazeSize s.difficulty) (mazeSize s.difficulty) s.difficulty
        (P.dirRs s.genCount) (P.trapRs s.genCount) (P.sfRs s.genCount) := by
  obtain ⟨m, hm⟩ := Option.isSome_iff_exists.mp
    (generateMaze_isSome (mazeSize s.difficulty) (mazeSize s.difficulty) s.difficulty
      (P.dirRs s.genCount) (P.trapRs s.genCount) (P.sfRs s.genCount))
  simp only [initGame, hm]
  simp [hm]
/-! ### The four live branches of the 100 ms tick -/

lemma slowTick_facts_playing (P : Params) {s : GS} (hg : s.gameState = GState.playing) :
    (slowTick P s).phase = s.phase ∧ (slowTick P s).difficulty = s.difficulty ∧
    ((slowTick P s).respawnPending = s.respawnPending ∨
      (slowTick P s).respawnPending = some GState.practice ∨
      (slowTick P s).respawnPending = some GState.playing) ∧
    ((slowTick P s).gameState = s.gameState ∨ (slowTick P s).gameState = GState.respawning ∨
      ((slowTick P s).gameState = GState.shop ∧ s.phase < 3) ∨
      ((slowTick P s).gameState = GState.gameover ∧ ¬s.phase < 3 ∧ s.phaseTime ≤ 1 / 10)) := by
  have hf := frameH_hazard P s
  have hsl : slowTick P s = clockTick P (hazardTick P s) GState.playing s.phase := by
    unfold slowTick
    rw [hg]
  rw [hsl, clockTick_playing]
  by_cases hpt : (hazardTick P s).phaseTime ≤ 1 / 10
  · rw [if_pos hpt]
    by_cases hlt : s.phase < 3
    · rw [if_pos hlt]
      exact ⟨hf.phase, hf.difficulty, hf.respawnPending, Or.inr (Or.inr (Or.inl ⟨rfl, hlt⟩))⟩
    · rw [if_neg hlt]
      refine ⟨hf.phase, hf.difficulty, hf.respawnPending,
        Or.inr (Or.inr (Or.inr ⟨rfl, hlt, ?_⟩))⟩
      rw [← hf.phaseTime]
      exact hpt
  · rw [if_neg hpt]
    refine ⟨hf.phase, hf.difficulty, hf.respawnPending, ?_⟩
    rcases hf.gameState with e | e
    · exact Or.inl e
    · exact Or.inr (Or.inl e)

lemma slowTick_facts_practice (P : Params) {s : GS} (hg : s.gameState = GState.practice) :
    (slowTick P s).phase = s.phase ∧ (slowTick P s).difficulty = s.difficulty ∧
    ((slowTick P s).respawnPending = s.respawnPending ∨
      (slowTick P s).respawnPending = some GState.practice ∨
      (slowTick P s).respawnPending = some GState.playing) ∧
    ((slowTick P s).gameState = s.gameState ∨ (slowTick P s).gameState = GState.respawning ∨
      (slowTick P s).gameState = GState.playing) := by
  have hf := frameH_hazard P s
  have hsl : slowTick P s = clockTick P (hazardTick P s) GState.practice s.phase := by
    unfold slowTick
    rw [hg]
  rw [hsl, clockTick_practice]
  by_cases hpt : (hazardTick P s).practiceTimer ≤ 1 / 10
  · rw [if_pos hpt]
    obtain ⟨g1, g2, g3, g4, -, -, -⟩ := initGame_proj P (hazardTick P s) GState.playing
    refine ⟨g2.trans hf.phase, g3.trans hf.difficulty, ?_, Or.inr (Or.inr g1)⟩
    rcases hf.respawnPending with e | e | e
    · exact Or.inl (g4.trans e)
    · exact Or.inr (Or.inl (g4.trans e))
    · exact Or.inr (Or.inr (g4.trans e))
  · rw [if_neg hpt]
    refine ⟨hf.phase, hf.difficulty, hf.respawnPending, ?_⟩
    rcases hf.gameState with e | e
    · exact Or.inl e
    · exact Or.inr (Or.inl e)

lemma slowTick_facts_shop (P : Params) {s : GS} (hg : s.gameState = GState.shop) :
    (slowTick P s).phase = s.phase ∧ (slowTick P s).difficulty = s.difficulty ∧
    (slowTick P s).respawnPending = s.respawnPending ∧
    ((slowTick P s).gameState = s.gameState ∨ (slowTick P s).gameState = GState.distractor) := by
  have hid : hazardTick P s = s := hazardTick_id P (by rw [hg]; decide)
  have hsl : slowTick P s = clockTick P s GState.shop s.phase := by
    unfold slowTick
    rw [hid, hg]
  rw [hsl, clockTick_shop]
  by_cases hst : s.shopTimer ≤ 1 / 10
  · rw [if_pos hst]
    exact ⟨rfl, rfl, rfl, Or.inr rfl⟩
  · rw [if_neg hst]
    exact ⟨rfl, rfl, rfl, Or.inl rfl⟩

lemma slowTick_facts_distractor (P : Params) {s : GS}
    (hg : s.gameState = GState.distractor) :
    (slowTick P s).difficulty = s.difficulty ∧
    (slowTick P s).respawnPending = s.respawnPending ∧
    (((slowTick P s).gameState = s.gameState ∧ (slowTick P s).phase = s.phase) ∨
      ((slowTick P s).gameState = GState.tutorial ∧ (slowTick P s).phase = s.phase + 1) ∨
      ((slowTick P s).gameState = GState.playing ∧ (slowTick P s).phase = s.phase + 1)) := by
  have hid : hazardTick P s = s := hazardTick_id P (by rw [hg]; decide)
  have hsl : slowTick P s = clockTick P s GState.distractor s.phase := by
    unfold slowTick
    rw [hid, hg]
  rw [hsl, clockTick_distractor]
  by_cases hdt : s.distractorTimer ≤ 1 / 10
  · rw [if_pos hdt]
    by_cases h23 : s.phase + 1 = 2 ∨ s.phase + 1 = 3
    · rw [if_pos h23]
      exact ⟨rfl, rfl, Or.inr (Or.inl ⟨rfl, rfl⟩)⟩
    · rw [if_neg h23]
      obtain ⟨g1, g2, g3, g4, -, -, -⟩ :=
        initGame_proj P { s with phase := s.phase + 1 } GState.playing
      exact ⟨g3, g4, Or.inr (Or.inr ⟨g1, g2⟩)⟩
  · rw [if_neg hdt]
    exact ⟨rfl, rfl, Or.inl ⟨rfl, rfl⟩⟩

/-! ### The reachable-state invariant -/

/-- Invariant of every reachable session state: phase stays within 1..3, the
shop and the distractor only occur in phases 1–2 (phase 3 ends the match
instead), a pending respawn only returns to `playing`/`practice`, and the
difficulty never exceeds its clamp of 10. -/
def SessionInv (s : GS) : Prop :=
  1 ≤ s.phase ∧ s.phase ≤ 3 ∧
  ((s.gameState = GState.shop ∨ s.gameState = GState.distractor) → s.phase ≤ 2) ∧
  (∀ t, s.respawnPending = some t → t = GState.playing ∨ t = GState.practice) ∧
  s.difficulty ≤ 10

lemma sessionInv_init : SessionInv initGS := by
  refine ⟨by decide, by decide, by decide, ?_, ?_⟩
  · intro t ht
    simp [initGS] at ht
  · have h : initGS.difficulty = 1 := rfl
    rw [h]
    norm_num

lemma pending_inv {s s' : GS}
    (h4 : ∀ t, s.respawnPending = some t → t = GState.playing ∨ t = GState.practice)
    (e : s'.respawnPending = s.respawnPending ∨ s'.respawnPending = some GState.practice ∨
      s'.respawnPending = some GState.playing) :
    ∀ t, s'.respawnPending = some t → t = GState.playing ∨ t = GState.practice := by
  intro t ht
  rcases e with e | e | e
  · rw [e] at ht
    exact h4 t ht
  · rw [e] at ht
    exact Or.inr (Option.some.inj ht).symm
  · rw [e] at ht
    exact Or.inl (Option.some.inj ht).symm

/-- `step_facts` conclusions for a transition that leaves phase, state,
pending respawn and difficulty untouched. -/
lemma stepFacts_frame {s s' : GS} (h : SessionInv s) (e1 : s'.phase = s.phase)
    (e2 : s'.gameState = s.gameState) (e3 : s'.respawnPending = s.respawnPending)
    (e4 : s'.difficulty = s.difficulty) :
    SessionInv s' ∧ (s'.phase = s.phase ∨ s'.phase = s.phase + 1) ∧
    (s'.gameState = GState.gameover → s.gameState = GState.gameover ∨
      (s.gameState = GState.playing ∧ s.phase = 3 ∧ s.phaseTime ≤ 1 / 10)) := by
  obtain ⟨h1, h2, h3, h4, h5⟩ := h
  refine ⟨⟨by omega, by omega, ?_, pending_inv h4 (Or.inl e3), by rw [e4]; exact h5⟩,
    Or.inl e1, ?_⟩
  · intro hgs
    rw [e2] at hgs
    rw [e1]
    exact h3 hgs
  · intro hgo
    rw [e2] at hgo
    exact Or.inl hgo

/-- `step_facts` conclusions for a transition that can keep the state, enter
`respawning`, or enter one fixed state `g` that is neither `shop`,
`distractor` nor `gameover`. -/
lemma stepFacts_or3 {s s' : GS} (h : SessionInv s) (g : GState)
    (hgne : g ≠ GState.gameover) (hgns : g ≠ GState.shop) (hgnd : g ≠ GState.distractor)
    (e1 : s'.phase = s.phase)
    (e3 : s'.respawnPending = s.respawnPending ∨ s'.respawnPending = some GState.practice ∨
      s'.respawnPending = some GState.playing)
    (e2 : s'.gameState = s.gameState ∨ s'.gameState = GState.respawning ∨ s'.gameState = g)
    (e4 : s'.difficulty = s.difficulty ∨ s'.difficulty ≤ 10) :
    SessionInv s' ∧ (s'.phase = s.phase ∨ s'.phase = s.phase + 1) ∧
    (s'.gameState = GState.gameover → s.gameState = GState.gameover ∨
      (s.gameState = GState.playing ∧ s.phase = 3 ∧ s.phaseTime ≤ 1 / 10)) := by
  obtain ⟨h1, h2, h3, h4, h5⟩ := h
  refine ⟨⟨by omega, by omega, ?_, pending_inv h4 e3, ?_⟩, Or.inl e1, ?_⟩
  · intro hgs
    rcases e2 with e | e | e
    · rw [e] at hgs
      rw [e1]
      exact h3 hgs
    · rw [e] at hgs
      rcases hgs with f | f <;> exact absurd f (by decide)
    · rw [e] at hgs
      rcases hgs with f | f
      · exact absurd f hgns
      · exact absurd f hgnd
  · rcases e4 with e | e
    · rw [e]
      exact h5
    · exact e
  · intro hgo
    rcases e2 with e | e | e
    · rw [e] at hgo
      exact Or.inl hgo
    · rw [e] at hgo
      exact absurd hgo (by decide)
    · rw [e] at hgo
      exact absurd hgo hgne

/-- `step_facts` conclusions for a transition that definitely enters a fixed
state `g` that is neither `shop`, `distractor` nor `gameover`. -/
lemma stepFacts_target {s s' : GS} (h : SessionInv s) (g : GState)
    (hgne : g ≠ GState.gameover) (hgns : g ≠ GState.shop) (hgnd : g ≠ GState.distractor)
    (e1 : s'.phase = s.phase) (e2 : s'.gameState = g)
    (e3 : s'.respawnPending = s.respawnPending)
    (e4 : s'.difficulty = s.difficulty ∨ s'.difficulty ≤ 10) :
    SessionInv s' ∧ (s'.phase = s.phase ∨ s'.phase = s.phase + 1) ∧
    (s'.gameState = GState.gameover → s.gameState = GState.gameover ∨
      (s.gameState = GState.playing ∧ s.phase = 3 ∧ s.phaseTime ≤ 1 / 10)) :=
  stepFacts_or3 h g hgne hgns hgnd e1 (Or.inl e3) (Or.inr (Or.inr e2)) e4

lemma stepFacts_frameH {s s' : GS} (h : SessionInv s) (hf : FrameH s s') :
    SessionInv s' ∧ (s'.phase = s.phase ∨ s'.phase = s.phase + 1) ∧
    (s'.gameState = GState.gameover → s.gameState = GState.gameover ∨
      (s.gameState = GState.playing ∧ s.phase = 3 ∧ s.phaseTime ≤ 1 / 10)) := by
  obtain ⟨h1, h2, h3, h4, h5⟩ := h
  have e1 := hf.phase
  refine ⟨⟨by omega, by omega, ?_, pending_inv h4 hf.respawnPending,
    by rw [hf.difficulty]; exact h5⟩, Or.inl e1, ?_⟩
  · intro hgs
    rcases hf.gameState with e | e
    · rw [e] at hgs
      rw [e1]
      exact h3 hgs
    · rw [e] at hgs
      rcases hgs with f | f <;> exact absurd f (by decide)
  · intro hgo
    rcases hf.gameState with e | e
    · rw [e] at hgo
      exact Or.inl hgo
    · rw [e] at hgo
      exact absurd hgo (by decide)

/-! ### Frame facts for the remaining handlers -/

lemma keyDown_facts (s : GS) (d : KeyDir) :
    (keyDown s d).phase = s.phase ∧ (keyDown s d).gameState = s.gameState ∧
    (keyDown s d).respawnPending = s.respawnPending ∧
    (keyDown s d).difficulty = s.difficulty := by
  unfold keyDown
  split <;> exact ⟨rfl, rfl, rfl, rfl⟩

lemma recvPlayerJoined_facts (s : GS) (mz : Option MazeData) :
    (recvPlayerJoined s mz).phase = s.phase ∧
    (recvPlayerJoined s mz).gameState = s.gameState ∧
    (recvPlayerJoined s mz).respawnPending = s.respawnPending ∧
    (recvPlayerJoined s mz).difficulty = s.difficulty := by
  unfold recvPlayerJoined
  split <;> exact ⟨rfl, rfl, rfl, rfl⟩

lemma respawnDone_facts (s : GS) (t : GState) :
    (respawnDone s t).gameState = t ∧ (respawnDone s t).respawnPending = none ∧
    (respawnDone s t).phase = s.phase ∧ (respawnDone s t).difficulty = s.difficulty := by
  unfold respawnDone
  split <;> exact ⟨rfl, rfl, rfl, rfl⟩

lemma tutorialBtn_facts (P : Params) (s : GS) :
    (tutorialBtn P s).phase = s.phase ∧
    (tutorialBtn P s).respawnPending = s.respawnPending ∧
    (tutorialBtn P s).difficulty = s.difficulty ∧
    ((tutorialBtn P s).gameState = s.gameState ∨
      (tutorialBtn P s).gameState = GState.practice ∨
      (tutorialBtn P s).gameState = GState.playing) := by
  unfold tutorialBtn
  split
  all_goals
    first
    | exact ⟨rfl, rfl, rfl, Or.inl rfl⟩
    | (obtain ⟨g1, g2, g3, g4, -, -, -⟩ := initGame_proj P s GState.practice
       exact ⟨g2, g4, g3, Or.inr (Or.inl g1)⟩)
    | (obtain ⟨g1, g2, g3, g4, -, -, -⟩ := initGame_proj P s GState.playing
       exact ⟨g2, g4, g3, Or.inr (Or.inr g1)⟩)

lemma respawn_facts3 (s : GS) (g : GState) :
    (respawnStart s).phase = s.phase ∧
    ((respawnStart s).respawnPending = s.respawnPending ∨
      (respawnStart s).respawnPending = some GState.practice ∨
      (respawnStart s).respawnPending = some GState.playing) ∧
    ((respawnStart s).gameState = s.gameState ∨
      (respawnStart s).gameState = GState.respawning ∨ (respawnStart s).gameState = g) ∧
    ((respawnStart s).difficulty = s.difficulty ∨ (respawnStart s).difficulty ≤ 10) := by
  have hf := frameH_respawnStart s
  refine ⟨hf.phase, hf.respawnPending, ?_, Or.inl hf.difficulty⟩
  rcases hf.gameState with e | e
  · exact Or.inl e
  · exact Or.inr (Or.inl e)

lemma motionTick_facts (P : Params) (s : GS) (mv : Bool) :
    (motionTick P s mv).phase = s.phase ∧
    ((motionTick P s mv).respawnPending = s.respawnPending ∨
      (motionTick P s mv).respawnPending = some GState.practice ∨
      (motionTick P s mv).respawnPending = some GState.playing) ∧
    ((motionTick P s mv).gameState = s.gameState ∨
      (motionTick P s mv).gameState = GState.respawning ∨
      (motionTick P s mv).gameState = GState.won) ∧
    ((motionTick P s mv).difficulty = s.difficulty ∨ (motionTick P s mv).difficulty ≤ 10) := by
  simp only [motionTick]
  repeat' split
  all_goals
    first
    | exact ⟨rfl, Or.inl rfl, Or.inl rfl, Or.inl rfl⟩
    | exact respawn_facts3 s GState.won
    | exact ⟨rfl, Or.inl rfl, Or.inr (Or.inr rfl), Or.inr (min_le_right _ _)⟩

lemma aiTick_facts (s : GS) (q : ℚ × ℚ) :
    (aiTick s q).phase = s.phase ∧
    ((aiTick s q).respawnPending = s.respawnPending ∨
      (aiTick s q).respawnPending = some GState.practice ∨
      (aiTick s q).respawnPending = some GState.playing) ∧
    ((aiTick s q).gameState = s.gameState ∨ (aiTick s q).gameState = GState.respawning ∨
      (aiTick s q).gameState = GState.lost) ∧
    ((aiTick s q).difficulty = s.difficulty ∨ (aiTick s q).difficulty ≤ 10) := by
  simp only [aiTick]
  repeat' split
  all_goals
    first
    | exact ⟨rfl, Or.inl rfl, Or.inl rfl, Or.inl rfl⟩
    | exact respawn_facts3 s GState.lost
    | exact ⟨rfl, Or.inl rfl, Or.inr (Or.inr rfl), Or.inl rfl⟩

/-! ### One transition preserves the invariant -/

lemma step_facts (P : Params) {s s' : GS} (hs : Step P s s') (h : SessionInv s) :
    SessionInv s' ∧ (s'.phase = s.phase ∨ s'.phase = s.phase + 1) ∧
    (s'.gameState = GState.gameover → s.gameState = GState.gameover ∨
      (s.gameState = GState.playing ∧ s.phase = 3 ∧ s.phaseTime ≤ 1 / 10)) := by
  cases hs with
  | slow hguard =>
      rcases hguard with hg | hg | hg | hg
      · obtain ⟨e1, e2, e3, e4⟩ := slowTick_facts_playing P hg
        obtain ⟨h1, h2, h3, h4, h5⟩ := h
        refine ⟨⟨by omega, by omega, ?_, pending_inv h4 e3, by rw [e2]; exact h5⟩,
          Or.inl e1, ?_⟩
        · intro hgs
          rcases e4 with e | e | ⟨e, hlt⟩ | ⟨e, hnlt, hpt⟩
          · rw [e, hg] at hgs
            rcases hgs with f | f <;> exact absurd f (by decide)
          · rw [e] at hgs
            rcases hgs with f | f <;> exact absurd f (by decide)
          · rw [e1]
            omega
          · rw [e] at hgs
            rcases hgs with f | f <;> exact absurd f (by decide)
        · intro hgo
          rcases e4 with e | e | ⟨e, hlt⟩ | ⟨e, hnlt, hpt⟩
          · rw [e] at hgo
            exact Or.inl hgo
          · rw [e] at hgo
            exact absurd hgo (by decide)
          · rw [e] at hgo
            exact absurd hgo (by decide)
          · exact Or.inr ⟨hg, by omega, hpt⟩
      · obtain ⟨e1, e2, e3, e4⟩ := slowTick_facts_practice P hg
        obtain ⟨h1, h2, h3, h4, h5⟩ := h
        refine ⟨⟨by omega, by omega, ?_, pending_inv h4 e3, by rw [e2]; exact h5⟩,
          Or.inl e1, ?_⟩
        · intro hgs
          rcases e4 with e | e | e
          · rw [e, hg] at hgs
            rcases hgs with f | f <;> exact absurd f (by decide)
          · rw [e] at hgs
            rcases hgs with f | f <;> exact absurd f (by decide)
          · rw [e] at hgs
            rcases hgs with f | f <;> exact absurd f (by decide)
        · intro hgo
          rcases e4 with e | e | e
          · rw [e] at hgo
            exact Or.inl hgo
          · rw [e] at hgo
            exact absurd hgo (by decide)
          · rw [e] at hgo
            exact absurd hgo (by decide)
      · obtain ⟨e1, e2, e3, e4⟩ := slowTick_facts_shop P hg
        obtain ⟨h1, h2, h3, h4, h5⟩ := h
        have hle2 : s.phase ≤ 2 := h3 (Or.inl hg)
        refine ⟨⟨by omega, by omega, ?_, pending_inv h4 (Or.inl e3), by rw [e2]; exact h5⟩,
          Or.inl e1, ?_⟩
        · intro hgs
          rw [e1]
          omega
        · intro hgo
          rcases e4 with e | e
          · rw [e] at hgo
            exact Or.inl hgo
          · rw [e] at hgo
            exact absurd hgo (by decide)
      · obtain ⟨e2, e3, e4⟩ := slowTick_facts_distractor P hg
        obtain ⟨h1, h2, h3, h4, h5⟩ := h
        have hle2 : s.phase ≤ 2 := h3 (Or.inr hg)
        rcases e4 with ⟨eg, ep⟩ | ⟨eg, ep⟩ | ⟨eg, ep⟩
        · refine ⟨⟨by omega, by omega, ?_, pending_inv h4 (Or.inl e3), by rw [e2]; exact h5⟩,
            Or.inl ep, ?_⟩
          · intro hgs
            rw [ep]
            omega
          · intro hgo
            rw [eg] at hgo
            exact Or.inl hgo
        · refine ⟨⟨by omega, by omega, ?_, pending_inv h4 (Or.inl e3), by rw [e2]; exact h5⟩,
            Or.inr ep, ?_⟩
          · intro hgs
            rw [eg] at hgs
            rcases hgs with f | f <;> exact absurd f (by decide)
          · intro hgo
            rw [eg] at hgo
            exact absurd hgo (by decide)
        · refine ⟨⟨by omega, by omega, ?_, pending_inv h4 (Or.inl e3), by rw [e2]; exact h5⟩,
            Or.inr ep, ?_⟩
          · intro hgs
            rw [eg] at hgs
            rcases hgs with f | f <;> exact absurd f (by decide)
          · intro hgo
            rw [eg] at hgo
            exact absurd hgo (by decide)
  | move mv =>
      obtain ⟨e1, e3, e2, e4⟩ := motionTick_facts P s mv
      exact stepFacts_or3 h GState.won (by decide) (by decide) (by decide) e1 e3 e2 e4
  | key d =>
      obtain ⟨e1, e2, e3, e4⟩ := keyDown_facts s d
      exact stepFacts_frame h e1 e2 e3 e4
  | ai q =>
      obtain ⟨e1, e3, e2, e4⟩ := aiTick_facts s q
      exact stepFacts_or3 h GState.lost (by decide) (by decide) (by decide) e1 e3 e2 e4
  | netOver wid t =>
      by_cases hw : wid = P.myId
      · have e2 : (recvGameOver P s wid t).gameState = GState.won := by
          simp only [recvGameOver]
          rw [if_pos hw]
        have e4 : (recvGameOver P s wid t).difficulty = min (s.difficulty + 1 / 2) 10 := by
          simp only [recvGameOver]
          rw [if_pos hw]
        refine stepFacts_target h GState.won (by decide) (by decide) (by decide) rfl e2 rfl
          (Or.inr ?_)
        rw [e4]
        exact min_le_right _ _
      · have e2 : (recvGameOver P s wid t).gameState = GState.lost := by
          simp only [recvGameOver]
          rw [if_neg hw]
        have e4 : (recvGameOver P s wid t).difficulty = s.difficulty := by
          simp only [recvGameOver]
          rw [if_neg hw]
        exact stepFacts_target h GState.lost (by decide) (by decide) (by decide) rfl e2 rfl
          (Or.inl e4)
  | netJoined mz =>
      obtain ⟨e1, e2, e3, e4⟩ := recvPlayerJoined_facts s mz
      exact stepFacts_frame h e1 e2 e3 e4
  | respawnFire t hpend =>
      obtain ⟨eg, ep, e1, e4⟩ := respawnDone_facts s t
      obtain ⟨h1, h2, h3, h4, h5⟩ := h
      have ht := h4 t hpend
      refine ⟨⟨by omega, by omega, ?_, ?_, by rw [e4]; exact h5⟩, Or.inl e1, ?_⟩
      · intro hgs
        rw [eg] at hgs
        rcases ht with rfl | rfl <;> rcases hgs with f | f <;> exact absurd f (by decide)
      · intro t2 ht2
        rw [ep] at ht2
        exact Option.noConfusion ht2
      · intro hgo
        rw [eg] at hgo
        rcases ht with rfl | rfl <;> exact absurd hgo (by decide)
  | confirmFire hconf hgs0 =>
      obtain ⟨h1, h2, h3, h4, h5⟩ := h
      have hle2 : s.phase ≤ 2 := h3 hgs0
      refine ⟨⟨h1, h2, ?_, pending_inv h4 (Or.inl rfl), h5⟩, Or.inl rfl, ?_⟩
      · intro hgs
        exact hle2
      · intro hgo
        have e : (confirmDone s).gameState = GState.distractor := rfl
        rw [e] at hgo
        exact absurd hgo (by decide)
  | lobbyStart hl =>
      exact stepFacts_target h GState.tutorial (by decide) (by decide) (by decide) rfl rfl rfl
        (Or.inl rfl)
  | tutorialNext htut =>
      obtain ⟨e1, e3, e4, e2⟩ := tutorialBtn_facts P s
      obtain ⟨h1, h2, h3, h4, h5⟩ := h
      refine ⟨⟨by omega, by omega, ?_, pending_inv h4 (Or.inl e3), by rw [e4]; exact h5⟩,
        Or.inl e1, ?_⟩
      · intro hgs
        rcases e2 with e | e | e
        · rw [e, htut] at hgs
          rcases hgs with f | f <;> exact absurd f (by decide)
        · rw [e] at hgs
          rcases hgs with f | f <;> exact absurd f (by decide)
        · rw [e] at hgs
          rcases hgs with f | f <;> exact absurd f (by decide)
      · intro hgo
        rcases e2 with e | e | e
        · rw [e] at hgo
          exact Or.inl hgo
        · rw [e] at hgo
          exact absurd hgo (by decide)
        · rw [e] at hgo
          exact absurd hgo (by decide)
  | buy hgs0 hc hch =>
      exact stepFacts_frame h rfl rfl rfl rfl
  | gamble hgs0 hc hch =>
      exact stepFacts_frame h rfl rfl rfl rfl
  | next hwl =>
      obtain ⟨g1, g2, g3, g4, -, -, -⟩ := initGame_proj P s GState.playing
      exact stepFacts_target h GState.playing (by decide) (by decide) (by decide) g2 g1 g4
        (Or.inl g3)
  | survey hsd hnl =>
      obtain ⟨g1, g2, g3, g4, -, -, -⟩ :=
        initGame_proj P { s with surveyDone := true } GState.practice
      exact stepFacts_target h GState.practice (by decide) (by decide) (by decide) g2 g1 g4
        (Or.inl g3)
  | trapHit m hg hp hm htr htt =>
      exact stepFacts_frameH h (frameH_respawnStart s)

lemma reach_sessionInv (P : Params) {s : GS} (hr : Reachable P s) : SessionInv s := by
  induction hr with
  | refl => exact sessionInv_init
  | tail hab hbc ih => exact (step_facts P hbc ih).1
/-! ### The practice-timer expiry branch -/

/-- The practice-timer expiry of the 100 ms tick: enter `playing` at the same
difficulty and phase, but with a freshly generated maze. -/
lemma slowTick_practice_expiry (P : Params) {s : GS} (h1 : s.gameState = GState.practice)
    (h2 : s.practiceTimer ≤ 1 / 10) :
    (slowTick P s).gameState = GState.playing ∧
    (slowTick P s).difficulty = s.difficulty ∧
    (slowTick P s).phase = s.phase ∧
    (slowTick P s).maze =
      generateMaze (mazeSize s.difficulty) (mazeSize s.difficulty) s.difficulty
        (P.dirRs s.genCount) (P.trapRs s.genCount) (P.sfRs s.genCount) := by
  have hf := frameH_hazard P s
  have hsl : slowTick P s = clockTick P (hazardTick P s) GState.practice s.phase := by
    unfold slowTick
    rw [h1]
  have hpt : (hazardTick P s).practiceTimer ≤ 1 / 10 := by
    rw [hf.practiceTimer]
    exact h2
  obtain ⟨g1, g2, g3, -, -, -, g7⟩ := initGame_proj P (hazardTick P s) GState.playing
  rw [hsl, clockTick_practice, if_pos hpt]
  refine ⟨g1, g3.trans hf.difficulty, g2.trans hf.phase, ?_⟩
  rw [hf.difficulty, hf.genCount] at g7
  exact g7

/-! ### Concrete instances for the state machine -/

/-- A concrete parameter pack: the unshuffled carve directions and an
all-heads coin stream. -/
def P0 : Params :=
  { myId := "me", dirRs := fun _ _ => baseDirs, trapRs := fun _ _ => (0, 0),
    sfRs := fun _ _ => (0, 0), bools := fun _ => true }

/-- A maze whose width no generated maze shares (the generator is never
called with width 999 at difficulty 1). -/
def mWide : MazeData :=
  { floor := {(0, 0)}, width := 999, height := 999, start := (0, 0), goal := (0, 0),
    traps := [], safeZones := [] }

/-- A practice state half a tick before the practice timer expires, holding
the 999-wide maze. -/
def s4 : GS :=
  { initGS with
    gameState := GState.practice, practiceTimer := 1 / 20, maze := some mWide }

/-- C4 (amended): when the practice timer expires in state `practice`, the
session transitions to `playing` with the same difficulty — but the maze IS
regenerated: the new maze is a fresh `generateMaze` call at the current
difficulty with the next random stream, not the maze used during practice. -/
theorem c4_practice_expiry_fresh_maze (P : Params) (s : GS)
    (h1 : s.gameState = GState.practice) (h2 : s.practiceTimer ≤ 1 / 10) :
    (slowTick P s).gameState = GState.playing ∧
    (slowTick P s).difficulty = s.difficulty ∧
    (slowTick P s).maze =
      generateMaze (mazeSize s.difficulty) (mazeSize s.difficulty) s.difficulty
        (P.dirRs s.genCount) (P.trapRs s.genCount) (P.sfRs s.genCount) := by
  obtain ⟨a, b, -, d⟩ := slowTick_practice_expiry P h1 h2
  exact ⟨a, b, d⟩

theorem c4_practice_expiry_fresh_maze_witness :
    s4.gameState = GState.practice ∧ s4.practiceTimer ≤ 1 / 10 ∧
    ((slowTick P0 s4).gameState = GState.playing ∧
      (slowTick P0 s4).difficulty = s4.difficulty ∧
      (slowTick P0 s4).maze =
        generateMaze (mazeSize s4.difficulty) (mazeSize s4.difficulty) s4.difficulty
          (P0.dirRs s4.genCount) (P0.trapRs s4.genCount) (P0.sfRs s4.genCount)) :=
  ⟨rfl, by norm_num [s4, initGS],
    c4_practice_expiry_fresh_maze P0 s4 rfl (by norm_num [s4, initGS])⟩

/-- C4 counterexample to the claim as frozen: from a practice state holding
the 999-wide maze, the practice-timer expiry installs a different maze (the
freshly generated 13×13 one), so the practice maze is NOT preserved by this
transition. -/
theorem c4_spec_counterexample :
    s4.gameState = GState.practice ∧ s4.practiceTimer ≤ 1 / 10 ∧
    (slowTick P0 s4).maze ≠ s4.maze := by
  refine ⟨rfl, by norm_num [s4, initGS], ?_⟩
  obtain ⟨-, -, -, hm⟩ :=
    slowTick_practice_expiry P0 (s := s4) rfl (by norm_num [s4, initGS])
  rw [hm]
  have hd : s4.difficulty = 1 := rfl
  have hgc : s4.genCount = 0 := rfl
  rw [hd, hgc]
  have hq : ⌊(1 : ℚ) * (3 / 2)⌋ = 1 := by norm_num
  have hsz : mazeSize 1 = 13 := by
    unfold mazeSize
    rw [hq]
    decide
  rw [hsz]
  intro hc
  have hs4 : s4.maze = some mWide := rfl
  rw [hs4] at hc
  have hw := (generateMaze_eq 13 13 1 (P0.dirRs 0) (P0.trapRs 0) (P0.sfRs 0) hc).2.1
  exact absurd hw (by decide)

lemma reachable_init (P : Params) : Reachable P initGS := Relation.ReflTransGen.refl

/-- C10: the difficulty of every reachable session state is at most 10: it
starts at 1 and both increase sites (the local win bonus and the winning
`GAME_OVER` handler) clamp their result with `min · 10`. -/
theorem c10_difficulty_clamped (P : Params) (s : GS) (hr : Reachable P s) :
    s.difficulty ≤ 10 :=
  (reach_sessionInv P hr).2.2.2.2

theorem c10_difficulty_clamped_witness : initGS.difficulty ≤ 10 :=
  c10_difficulty_clamped P0 initGS (reachable_init P0)

/-- C5: a transition from a reachable state moves the phase by at most one
upward unit step and keeps it within 1..3 (so the phase never decreases and
never skips a value along 1→2→3), and a transition can only land in
`gameover` if it was already there or the phase clock expired in `playing`
while the phase was 3. -/
theorem c5_phase_monotone_gameover (P : Params) (s s' : GS) (hr : Reachable P s)
    (hs : Step P s s') :
    (s'.phase = s.phase ∨ s'.phase = s.phase + 1) ∧ 1 ≤ s'.phase ∧ s'.phase ≤ 3 ∧
    (s'.gameState = GState.gameover → s.gameState = GState.gameover ∨
      (s.gameState = GState.playing ∧ s.phase = 3 ∧ s.phaseTime ≤ 1 / 10)) := by
  have hI := reach_sessionInv P hr
  obtain ⟨hI2, hph, hgo⟩ := step_facts P hs hI
  exact ⟨hph, hI2.1, hI2.2.1, hgo⟩

theorem c5_phase_monotone_gameover_witness :
    ((uiStart initGS).phase = initGS.phase ∨ (uiStart initGS).phase = initGS.phase + 1) ∧
    1 ≤ (uiStart initGS).phase ∧ (uiStart initGS).phase ≤ 3 ∧
    ((uiStart initGS).gameState = GState.gameover → initGS.gameState = GState.gameover ∨
      (initGS.gameState = GState.playing ∧ initGS.phase = 3 ∧ initGS.phaseTime ≤ 1 / 10)) :=
  c5_phase_monotone_gameover P0 initGS (uiStart initGS) (reachable_init P0)
    (Step.lobbyStart initGS rfl)

/-! ### The win branch of the motion tick -/

/-- Case analysis on one `playing` motion tick: it is a no-op, a respawn
(phase-2 freeze), a plain move to a non-goal cell, or the win transition. -/
lemma motionTick_cases (P : Params) (s : GS) (m : MazeData) (mv : Bool)
    (hg : s.gameState = GState.playing) (hm : s.maze = some m) :
    motionTick P s mv = s ∨ motionTick P s mv = respawnStart s ∨
    (∃ nx ny, (⌊nx / CELL_SIZE⌋, ⌊ny / CELL_SIZE⌋) ≠ m.goal ∧
      (motionTick P s mv).posX = nx ∧ (motionTick P s mv).posY = ny) ∨
    (∃ nx ny, (⌊nx / CELL_SIZE⌋, ⌊ny / CELL_SIZE⌋) = m.goal ∧
      (motionTick P s mv).gameState = GState.won ∧
      (motionTick P s mv).coins = s.coins + max 1 (min 5 ⌊30 / (s.time + 1)⌋)) := by
  cases mv with
  | false =>
      simp only [motionTick, hg, hm, reduceCtorEq, reduceIte, eq_self_iff_true, true_or,
        if_true, if_false, Bool.false_eq_true]
  | true =>
      simp only [motionTick, hg, hm, reduceCtorEq, reduceIte, eq_self_iff_true, true_or,
        if_true, if_false]
      by_cases hfr : s.phase = 2 ∧ s.trapTimer ≤ if s.flashYellow = true then 3 else 1
      · rw [if_pos hfr]
        exact Or.inr (Or.inl rfl)
      · rw [if_neg hfr]
        repeat' split
        all_goals
          first
          | exact Or.inr (Or.inr (Or.inr ⟨_, _, by assumption, rfl, rfl⟩))
          | exact Or.inr (Or.inr (Or.inl ⟨_, _, by assumption, rfl, rfl⟩))

/-- C6: a `playing` motion tick whose resulting grid cell is the maze end
cell — reached from a different cell — switches the state to `won` and adds
exactly `max 1 (min 5 ⌊30 / (time + 1)⌋)` coins. -/
theorem c6_win_transition (P : Params) (s : GS) (m : MazeData) (mv : Bool)
    (hg : s.gameState = GState.playing) (hm : s.maze = some m)
    (hend : (⌊(motionTick P s mv).posX / CELL_SIZE⌋,
      ⌊(motionTick P s mv).posY / CELL_SIZE⌋) = m.goal)
    (hprev : (⌊s.posX / CELL_SIZE⌋, ⌊s.posY / CELL_SIZE⌋) ≠ m.goal) :
    (motionTick P s mv).gameState = GState.won ∧
    (motionTick P s mv).coins = s.coins + max 1 (min 5 ⌊30 / (s.time + 1)⌋) := by
  rcases motionTick_cases P s m mv hg hm with h | h | ⟨nx, ny, hne, hpx, hpy⟩ |
    ⟨nx, ny, heq, hgs, hcoins⟩
  · rw [h] at hend
    exact absurd hend hprev
  · rw [h] at hend
    rw [(frameH_respawnStart s).posX, (frameH_respawnStart s).posY] at hend
    exact absurd hend hprev
  · rw [hpx, hpy] at hend
    exact absurd hend hne
  · exact ⟨hgs, hcoins⟩

/-- A 2×1 corridor: floor `(0,0) → (1,0)`, goal at `(1,0)`. -/
def mRow : MazeData :=
  { floor := {(0, 0), (1, 0)}, width := 2, height := 1, start := (0, 0), goal := (1, 0),
    traps := [], safeZones := [] }

/-- A playing state one step left of the corridor goal, heading right. -/
def s6 : GS :=
  { initGS with
    gameState := GState.playing, maze := some mRow, posX := 38, posY := 20,
    targetAngle := 1 }

lemma mRow_noCollision42 : checkCollision 42 20 mRow = false := by
  simp only [checkCollision, corners]
  rw [List.any_eq_false]
  intro p hp
  simp only [List.mem_cons, List.not_mem_nil, or_false] at hp
  have e1 : ⌊((42 : ℚ) - (PLAYER_RADIUS + 2)) / CELL_SIZE⌋ = (0 : ℤ) := by
    unfold CELL_SIZE PLAYER_RADIUS
    exact qfloor40 (by norm_num) (by norm_num)
  have e2 : ⌊((42 : ℚ) + (PLAYER_RADIUS + 2)) / CELL_SIZE⌋ = (1 : ℤ) := by
    unfold CELL_SIZE PLAYER_RADIUS
    exact qfloor40 (by norm_num) (by norm_num)
  have e3 : ⌊((20 : ℚ) - (PLAYER_RADIUS + 2)) / CELL_SIZE⌋ = (0 : ℤ) := by
    unfold CELL_SIZE PLAYER_RADIUS
    exact qfloor40 (by norm_num) (by norm_num)
  have e4 : ⌊((20 : ℚ) + (PLAYER_RADIUS + 2)) / CELL_SIZE⌋ = (0 : ℤ) := by
    unfold CELL_SIZE PLAYER_RADIUS
    exact qfloor40 (by norm_num) (by norm_num)
  rcases hp with rfl | rfl | rfl | rfl <;>
    · rw [Bool.not_eq_true]
      simp only [cellOf, e1, e2, e3, e4]
      decide

lemma mRow_noCollision38 : checkCollision 38 20 mRow = false := by
  simp only [checkCollision, corners]
  rw [List.any_eq_false]
  intro p hp
  simp only [List.mem_cons, List.not_mem_nil, or_false] at hp
  have e1 : ⌊((38 : ℚ) - (PLAYER_RADIUS + 2)) / CELL_SIZE⌋ = (0 : ℤ) := by
    unfold CELL_SIZE PLAYER_RADIUS
    exact qfloor40 (by norm_num) (by norm_num)
  have e2 : ⌊((38 : ℚ) + (PLAYER_RADIUS + 2)) / CELL_SIZE⌋ = (1 : ℤ) := by
    unfold CELL_SIZE PLAYER_RADIUS
    exact qfloor40 (by norm_num) (by norm_num)
  have e3 : ⌊((20 : ℚ) - (PLAYER_RADIUS + 2)) / CELL_SIZE⌋ = (0 : ℤ) := by
    unfold CELL_SIZE PLAYER_RADIUS
    exact qfloor40 (by norm_num) (by norm_num)
  have e4 : ⌊((20 : ℚ) + (PLAYER_RADIUS + 2)) / CELL_SIZE⌋ = (0 : ℤ) := by
    unfold CELL_SIZE PLAYER_RADIUS
    exact qfloor40 (by norm_num) (by norm_num)
  rcases hp with rfl | rfl | rfl | rfl <;>
    · rw [Bool.not_eq_true]
      simp only [cellOf, e1, e2, e3, e4]
      decide

lemma motionTick_s6_pos :
    (motionTick P0 s6 true).posX = 42 ∧ (motionTick P0 s6 true).posY = 20 := by
  have hm : s6.maze = some mRow := rfl
  have e42 : s6.posX + (quarterVec s6.targetAngle).1 *
      (4 * (1 + (s6.difficulty - 1) * (1 / 20))) = 42 := by
    show (38 : ℚ) + (quarterVec 1).1 * (4 * (1 + ((1 : ℚ) - 1) * (1 / 20))) = 42
    norm_num [quarterVec]
  have e20 : s6.posY + (quarterVec s6.targetAngle).2 *
      (4 * (1 + (s6.difficulty - 1) * (1 / 20))) = 20 := by
    show (20 : ℚ) + (quarterVec 1).2 * (4 * (1 + ((1 : ℚ) - 1) * (1 / 20))) = 20
    norm_num [quarterVec]
  have hcx : checkCollision (s6.posX + (quarterVec s6.targetAngle).1 *
      (4 * (1 + (s6.difficulty - 1) * (1 / 20)))) s6.posY mRow = false := by
    rw [e42]
    show checkCollision 42 20 mRow = false
    exact mRow_noCollision42
  have hcy : checkCollision s6.posX (s6.posY + (quarterVec s6.targetAngle).2 *
      (4 * (1 + (s6.difficulty - 1) * (1 / 20)))) mRow = false := by
    rw [e20]
    show checkCollision 38 20 mRow = false
    exact mRow_noCollision38
  simp only [motionTick, hm, eq_self_iff_true, if_true]
  rw [if_pos (Or.inl (show s6.gameState = GState.playing from rfl))]
  rw [if_neg (fun h => absurd h.1 (by decide))]
  simp only [hcx, hcy, Bool.false_eq_true, if_false]
  rw [e42, e20]
  exact ⟨rfl, rfl⟩

lemma s6_end_cell :
    (⌊(motionTick P0 s6 true).posX / CELL_SIZE⌋,
      ⌊(motionTick P0 s6 true).posY / CELL_SIZE⌋) = mRow.goal := by
  obtain ⟨e1, e2⟩ := motionTick_s6_pos
  rw [e1, e2]
  unfold CELL_SIZE
  rw [qfloor40 (c := 1) (by norm_num) (by norm_num),
    qfloor40 (c := 0) (by norm_num) (by norm_num)]
  decide

lemma s6_prev_cell : (⌊s6.posX / CELL_SIZE⌋, ⌊s6.posY / CELL_SIZE⌋) ≠ mRow.goal := by
  have e1 : s6.posX = 38 := rfl
  have e2 : s6.posY = 20 := rfl
  rw [e1, e2]
  unfold CELL_SIZE
  rw [qfloor40 (c := 0) (by norm_num) (by norm_num),
    qfloor40 (c := 0) (by norm_num) (by norm_num)]
  decide

theorem c6_win_transition_witness :
    s6.gameState = GState.playing ∧ s6.maze = some mRow ∧
    (⌊(motionTick P0 s6 true).posX / CELL_SIZE⌋,
      ⌊(motionTick P0 s6 true).posY / CELL_SIZE⌋) = mRow.goal ∧
    (⌊s6.posX / CELL_SIZE⌋, ⌊s6.posY / CELL_SIZE⌋) ≠ mRow.goal ∧
    ((motionTick P0 s6 true).gameState = GState.won ∧
      (motionTick P0 s6 true).coins = s6.coins + max 1 (min 5 ⌊30 / (s6.time + 1)⌋)) :=
  ⟨rfl, rfl, s6_end_cell, s6_prev_cell,
    c6_win_transition P0 s6 mRow true rfl rfl s6_end_cell s6_prev_cell⟩

end MazeRace
